import Mathlib

/-!
Verification development for the zap-suite backend (`src/server.py`).

Modelling conventions.
Python `str` values are modelled as `List Char` (a Python string is a
sequence of unicode code points).  The regular-expression passes of the
source are modelled as explicit single-pass, left-to-right, non-overlapping
scanners; where the patterns involved allow no real backtracking (every
repetition in them is followed by a character outside the repeated class)
the maximal-munch scanners below are exactly the `re` semantics used by the
source.  `re.sub` performs one pass over its input and never rescans text
it has already produced; the scanners below do the same.  Subprocess and
clock effects are supplied through explicit environment records, and the
per-task runner returns a trace recording which external steps ran and
every call made to the raw-output sink.
-/

namespace ZapSuite

/-- Whitespace class used by Python `\s` and `str.strip` (ASCII part;
the unicode-only whitespace code points never occur in the texts of this
development). -/
def isSpaceC (c : Char) : Bool :=
  c = ' ' || c = '\t' || c = '\n' || c = '\r' || c = '\x0b' || c = '\x0c'

/-- Digit class of Python `\d` (ASCII). -/
def isDigitC (c : Char) : Bool :=
  '0' ≤ c && c ≤ '9'

/-- Word class of Python `\w` (ASCII part; tool names in the source are
ASCII). -/
def isWordC (c : Char) : Bool :=
  ('a' ≤ c && c ≤ 'z') || ('A' ≤ c && c ≤ 'Z') || isDigitC c || c = '_'



/-- Python `str.lstrip()` on the whitespace class. -/
def trimLeftC (l : List Char) : List Char :=
  l.dropWhile isSpaceC

/-- Python `str.rstrip()` on the whitespace class. -/
def trimRightC (l : List Char) : List Char :=
  (l.reverse.dropWhile isSpaceC).reverse

/-- Python `str.strip()`. -/
def stripC (l : List Char) : List Char :=
  trimRightC (trimLeftC l)

/-- First occurrence of the literal `pat` in a text: returns the text
before the occurrence and the text after it.  This is the scanning
discipline of `re.search` for a literal pattern. -/
def splitOnFirst (pat : List Char) : List Char → Option (List Char × List Char)
  | [] => if pat.isEmpty then some ([], []) else none
  | c :: cs =>
    if pat.isPrefixOf (c :: cs) then some ([], (c :: cs).drop pat.length)
    else
      match splitOnFirst pat cs with
      | some (pre, post) => some (c :: pre, post)
      | none => none

/-- Python `pat in s` (substring containment). -/
def containsSub (pat s : List Char) : Bool :=
  (splitOnFirst pat s).isSome

/-- The spinner glyphs of the character class at `server.py:125` (the
source file stores them double-encoded; these are the code points Python
sees when importing the file). -/
def spinnerCodes : List Nat :=
  [0x201A, 0x2020, 0xE3, 0xF4, 0x3C0, 0x220F, 0xBA, 0xA5, 0xB6, 0xDF, 0xE1, 0xE8]

def isSpinnerC (c : Char) : Bool :=
  spinnerCodes.any (fun n => c.toNat = n)

/-- Head match for `\x1b\[[0-9;]*[mK]` (`server.py:122`): returns the text
after the matched escape sequence.  The `[0-9;]*` run is followed by a
character outside its class, so maximal munch is exact. -/
def matchAnsi (l : List Char) : Option (List Char) :=
  match l with
  | '\x1b' :: '[' :: rest =>
    match rest.dropWhile (fun d => isDigitC d || d = ';') with
    | 'm' :: tail => some tail
    | 'K' :: tail => some tail
    | _ => none
  | _ => none


/-- One pass of `re.sub(r'\x1b\[[0-9;]*[mK]', '', s)` (`server.py:122`).
Recursion is by explicit fuel (always at least the text length, which by
`matchAnsi_shrinks` suffices) so that the scanner reduces inside the
kernel. -/
def subAnsiF : Nat → List Char → List Char
  | 0, l => l
  | _ + 1, [] => []
  | fuel + 1, c :: cs =>
    match matchAnsi (c :: cs) with
    | some tail => subAnsiF fuel tail
    | none => c :: subAnsiF fuel cs

def subAnsi (l : List Char) : List Char :=
  subAnsiF l.length l

/-- One pass of the spinner-glyph removal `re.sub(r'[...]', '', s)`
(`server.py:125`); removing single characters of a class is a filter. -/
def subSpinner (l : List Char) : List Char :=
  l.filter (fun c => !isSpinnerC c)

/-- The literal `Thinking...`. -/
def thinkingLit : List Char :=
  ['T', 'h', 'i', 'n', 'k', 'i', 'n', 'g', '.', '.', '.']

/-- Head match for `[spinners]\s*Thinking\.\.\.` (`server.py:128`).  After
the class char the `\s*` run is followed by `T`, a non-space, so maximal
munch is exact. -/
def matchSpinThink (l : List Char) : Option (List Char) :=
  match l with
  | c :: cs =>
    if isSpinnerC c then
      if thinkingLit.isPrefixOf (cs.dropWhile isSpaceC) then
        some ((cs.dropWhile isSpaceC).drop thinkingLit.length)
      else none
    else none
  | [] => none


/-- One pass of `re.sub(r'[spinners]\s*Thinking\.\.\.', '', s)`
(`server.py:128`), by fuel (sufficient by `matchSpinThink_shrinks`). -/
def subSpinThinkF : Nat → List Char → List Char
  | 0, l => l
  | _ + 1, [] => []
  | fuel + 1, c :: cs =>
    match matchSpinThink (c :: cs) with
    | some tail => subSpinThinkF fuel tail
    | none => c :: subSpinThinkF fuel cs

def subSpinThink (l : List Char) : List Char :=
  subSpinThinkF l.length l

/-- One pass of `re.sub(r'Thinking\.\.\.', '', s)` (`server.py:129`).
The pass resumes after each removed match and never rescans output it has
already emitted, exactly like `re.sub` (so removing a match may leave a new
`Thinking...` in the output). -/
def subThinkingF : Nat → List Char → List Char
  | 0, l => l
  | _ + 1, [] => []
  | fuel + 1, c :: cs =>
    if thinkingLit.isPrefixOf (c :: cs) then
      subThinkingF fuel ((c :: cs).drop thinkingLit.length)
    else c :: subThinkingF fuel cs

def subThinking (l : List Char) : List Char :=
  subThinkingF l.length l

/-- Head match for `Tool \w+ execution time: \d+ms` (`server.py:132` and
`server.py:226`): returns the tool name, its duration in ms, and the text
after the match.  Both repetitions are followed by a character outside
their class (a space, resp. `m`), so maximal munch is exact. -/
def matchToolMarker (l : List Char) : Option (List Char × Nat × List Char) :=
  let toolLit : List Char := ['T', 'o', 'o', 'l', ' ']
  if toolLit.isPrefixOf l then
    let rest := l.drop 5
    let name := rest.takeWhile isWordC
    let rest2 := rest.dropWhile isWordC
    if name.isEmpty then none
    else
      let execLit : List Char :=
        [' ', 'e', 'x', 'e', 'c', 'u', 't', 'i', 'o', 'n', ' ',
         't', 'i', 'm', 'e', ':', ' ']
      if execLit.isPrefixOf rest2 then
        let rest3 := rest2.drop 17
        let digits := rest3.takeWhile isDigitC
        let rest4 := rest3.dropWhile isDigitC
        if digits.isEmpty then none
        else
          match rest4 with
          | 'm' :: 's' :: tail =>
            some (name, digits.foldl (fun a c => a * 10 + (c.toNat - '0'.toNat)) 0, tail)
          | _ => none
      else none
  else none


/-- One pass of `re.sub(r'Tool \w+ execution time: \d+ms', '', s)`
(`server.py:132`), by fuel (sufficient by `matchToolMarker_shrinks`). -/
def subToolMsgF : Nat → List Char → List Char
  | 0, l => l
  | _ + 1, [] => []
  | fuel + 1, c :: cs =>
    match matchToolMarker (c :: cs) with
    | some r => subToolMsgF fuel r.2.2
    | none => c :: subToolMsgF fuel cs

def subToolMsg (l : List Char) : List Char :=
  subToolMsgF l.length l

/-- Index of the last occurrence of `c` in `l`. -/
def lastIdxOf (c : Char) (l : List Char) : Option Nat :=
  match l.reverse.findIdx? (fun x => x = c) with
  | some j => some (l.length - 1 - j)
  | none => none

/-- Head match for `\n\s*\n` (`server.py:135`).  The greedy `\s*` must end
right before a `\n`, so the match runs to the last newline inside the
maximal whitespace run following the opening newline; returns the text
after the match. -/
def matchBlankRun (l : List Char) : Option (List Char) :=
  match l with
  | '\n' :: cs =>
    match lastIdxOf '\n' (cs.takeWhile isSpaceC) with
    | some k => some (cs.drop (k + 1))
    | none => none
  | _ => none


/-- One pass of `re.sub(r'\n\s*\n', '\n', s)` (`server.py:135`): each match
is replaced by a single newline, and scanning resumes after the match
(the replacement itself is never rescanned). -/
def subBlankLinesF : Nat → List Char → List Char
  | 0, l => l
  | _ + 1, [] => []
  | fuel + 1, c :: cs =>
    match matchBlankRun (c :: cs) with
    | some tail => '\n' :: subBlankLinesF fuel tail
    | none => c :: subBlankLinesF fuel cs

def subBlankLines (l : List Char) : List Char :=
  subBlankLinesF l.length l

/-- `re.sub(r'^\s*\n', '', s)` (`server.py:136`).  Without `re.MULTILINE`
the `^` anchors at the start of the string only, so at most one match is
possible: the leading whitespace up to (and including) the last newline of
the maximal leading whitespace run. -/
def subLeadBlank (l : List Char) : List Char :=
  match lastIdxOf '\n' (l.takeWhile isSpaceC) with
  | some k => l.drop (k + 1)
  | none => l

/-- `re.sub(r'\n\s*$', '', s)` (`server.py:137`).  Without `re.MULTILINE`
the `$` anchors at the end of the string (or just before a final newline,
which the greedy `\s*` subsumes), so the single possible match is the
first newline followed only by whitespace; everything from it on is
removed. -/
def subTrailBlank : List Char → List Char
  | [] => []
  | c :: cs =>
    if c = '\n' && cs.all isSpaceC then []
    else c :: subTrailBlank cs

/-- One pass of `re.sub(r' +', ' ', s)` (`server.py:138`): every maximal
run of spaces becomes a single space. -/
def subSpacesF : Nat → List Char → List Char
  | 0, l => l
  | _ + 1, [] => []
  | fuel + 1, c :: cs =>
    if c = ' ' then ' ' :: subSpacesF fuel (cs.dropWhile (fun x => x = ' '))
    else c :: subSpacesF fuel cs

def subSpaces (l : List Char) : List Char :=
  subSpacesF l.length l

/-- `clean_raw_output` (`server.py:113`): the cleaning passes in source
order, then `str.strip()`.  An empty (falsy) input returns `""`; the
enclosing `try/except` of the source cannot fire for these pure passes. -/
def clean_raw_output (raw : List Char) : List Char :=
  if raw.isEmpty then []
  else
    stripC (subSpaces (subTrailBlank (subLeadBlank (subBlankLines
      (subToolMsg (subThinking (subSpinThink (subSpinner (subAnsi raw)))))))))

/-! JSON values and a model of Python `json.loads` (default, strict mode).
Numbers keep their source token (the claims never compare two numeric
values written differently); `\uXXXX` escapes naming lone surrogates are
mapped through `Char.ofNat`, which the texts of this development never
exercise. -/

inductive Json where
  | null : Json
  | bool (b : Bool) : Json
  | num (tok : List Char) : Json
  | str (s : List Char) : Json
  | arr (elems : List Json) : Json
  | obj (fields : List (List Char × Json)) : Json

/-- Dictionary lookup on the fields of a parsed object (first binding wins,
used only on texts without duplicate keys). -/
def jlookup : List (List Char × Json) → List Char → Option Json
  | [], _ => none
  | (k, v) :: r, key => if k = key then some v else jlookup r key

/-- The string value of a top-level object field, when present (a
projection used to compare parsed values). -/
def jStrAt (key : List Char) (j : Json) : Option (List Char) :=
  match j with
  | Json.obj fs =>
    match jlookup fs key with
    | some (Json.str s) => some s
    | _ => none
  | _ => none

/-- Whitespace skipped between JSON tokens by `json.loads`
(only space, tab, newline, carriage return). -/
def skipJsonWs (l : List Char) : List Char :=
  l.dropWhile (fun c => c = ' ' || c = '\t' || c = '\n' || c = '\r')

def hexVal (c : Char) : Option Nat :=
  if isDigitC c then some (c.toNat - '0'.toNat)
  else if 'a' ≤ c && c ≤ 'f' then some (10 + c.toNat - 'a'.toNat)
  else if 'A' ≤ c && c ≤ 'F' then some (10 + c.toNat - 'A'.toNat)
  else none

/-- Body of a JSON string after the opening quote: returns the decoded
content and the text after the closing quote.  Strict mode: a raw control
character (code point below 0x20) is rejected, exactly as `json.loads`
does by default. -/
def parseStringBody : Nat → List Char → Option (List Char × List Char)
  | 0, _ => none
  | _ + 1, [] => none
  | fuel + 1, c :: cs =>
    if c = '"' then some ([], cs)
    else if c = '\\' then
      match cs with
      | '"' :: r => (parseStringBody fuel r).map (fun p => ('"' :: p.1, p.2))
      | '\\' :: r => (parseStringBody fuel r).map (fun p => ('\\' :: p.1, p.2))
      | '/' :: r => (parseStringBody fuel r).map (fun p => ('/' :: p.1, p.2))
      | 'b' :: r => (parseStringBody fuel r).map (fun p => ('\x08' :: p.1, p.2))
      | 'f' :: r => (parseStringBody fuel r).map (fun p => ('\x0c' :: p.1, p.2))
      | 'n' :: r => (parseStringBody fuel r).map (fun p => ('\n' :: p.1, p.2))
      | 'r' :: r => (parseStringBody fuel r).map (fun p => ('\r' :: p.1, p.2))
      | 't' :: r => (parseStringBody fuel r).map (fun p => ('\t' :: p.1, p.2))
      | 'u' :: h1 :: h2 :: h3 :: h4 :: r =>
        match hexVal h1, hexVal h2, hexVal h3, hexVal h4 with
        | some a, some b, some c2, some d =>
          (parseStringBody fuel r).map
            (fun p => (Char.ofNat (((a * 16 + b) * 16 + c2) * 16 + d) :: p.1, p.2))
        | _, _, _, _ => none
      | _ => none
    else if c.toNat < 0x20 then none
    else (parseStringBody fuel cs).map (fun p => (c :: p.1, p.2))

/-- JSON number token: `-?(0|[1-9]\d*)(\.\d+)?([eE][-+]?\d+)?`, returned
as the raw token together with the rest of the text. -/
def parseNumber (l : List Char) : Option (List Char × List Char) :=
  let signAndRest : List Char × List Char :=
    match l with
    | '-' :: r => (['-'], r)
    | _ => ([], l)
  let sign := signAndRest.1
  let afterSign := signAndRest.2
  match afterSign with
  | [] => none
  | c :: cs =>
    if c = '0' then
      let intPart := ['0']
      let rest := cs
      let fracAndRest : List Char × List Char :=
        match rest with
        | '.' :: r =>
          let ds := r.takeWhile isDigitC
          if ds.isEmpty then ([], rest) else ('.' :: ds, r.dropWhile isDigitC)
        | _ => ([], rest)
      let afterFrac := fracAndRest.2
      let expAndRest : List Char × List Char :=
        match afterFrac with
        | e :: r =>
          if e = 'e' || e = 'E' then
            match r with
            | s :: r2 =>
              if s = '+' || s = '-' then
                let ds := r2.takeWhile isDigitC
                if ds.isEmpty then ([], afterFrac)
                else (e :: s :: ds, r2.dropWhile isDigitC)
              else
                let ds := r.takeWhile isDigitC
                if ds.isEmpty then ([], afterFrac)
                else (e :: ds, r.dropWhile isDigitC)
            | [] => ([], afterFrac)
          else ([], afterFrac)
        | [] => ([], afterFrac)
      some (sign ++ intPart ++ fracAndRest.1 ++ expAndRest.1, expAndRest.2)
    else if isDigitC c then
      let ds := afterSign.takeWhile isDigitC
      let rest := afterSign.dropWhile isDigitC
      let fracAndRest : List Char × List Char :=
        match rest with
        | '.' :: r =>
          let ds2 := r.takeWhile isDigitC
          if ds2.isEmpty then ([], rest) else ('.' :: ds2, r.dropWhile isDigitC)
        | _ => ([], rest)
      let afterFrac := fracAndRest.2
      let expAndRest : List Char × List Char :=
        match afterFrac with
        | e :: r =>
          if e = 'e' || e = 'E' then
            match r with
            | s :: r2 =>
              if s = '+' || s = '-' then
                let ds2 := r2.takeWhile isDigitC
                if ds2.isEmpty then ([], afterFrac)
                else (e :: s :: ds2, r2.dropWhile isDigitC)
              else
                let ds2 := r.takeWhile isDigitC
                if ds2.isEmpty then ([], afterFrac)
                else (e :: ds2, r.dropWhile isDigitC)
            | [] => ([], afterFrac)
          else ([], afterFrac)
        | [] => ([], afterFrac)
      some (sign ++ ds ++ fracAndRest.1 ++ expAndRest.1, expAndRest.2)
    else none

/-- Comma-separated array items after the first value, parameterised by the
value parser of the next lower fuel level (this avoids mutual recursion;
recursion is structural on the fuel). -/
def parseItemsAux (pv : List Char → Option (Json × List Char)) :
    Nat → List Char → List Json → Option (List Json × List Char)
  | 0, _, _ => none
  | fuel + 1, l, acc =>
    match skipJsonWs l with
    | ']' :: r => some (acc.reverse, r)
    | ',' :: r =>
      match pv (skipJsonWs r) with
      | some (v, rest) => parseItemsAux pv fuel rest (v :: acc)
      | none => none
    | _ => none

/-- Comma-separated object fields after the first pair. -/
def parseFieldsAux (pv : List Char → Option (Json × List Char)) :
    Nat → List Char → List (List Char × Json) →
    Option (List (List Char × Json) × List Char)
  | 0, _, _ => none
  | fuel + 1, l, acc =>
    match skipJsonWs l with
    | '\x7d' :: r => some (acc.reverse, r)
    | ',' :: r =>
      match skipJsonWs r with
      | '"' :: r2 =>
        match parseStringBody (r2.length + 1) r2 with
        | some (key, rest) =>
          match skipJsonWs rest with
          | ':' :: r3 =>
            match pv (skipJsonWs r3) with
            | some (v, rest2) => parseFieldsAux pv fuel rest2 ((key, v) :: acc)
            | none => none
          | _ => none
        | none => none
      | _ => none
    | _ => none

/-- One JSON value (no leading whitespace expected); fuel-structural model
of the recursive-descent scanner of `json.loads` with its default
`parse_constant` accepting `NaN`, `Infinity` and `-Infinity`. -/
def parseValue : Nat → List Char → Option (Json × List Char)
  | 0, _ => none
  | fuel + 1, l =>
    match l with
    | '"' :: r =>
      (parseStringBody (r.length + 1) r).map (fun p => (Json.str p.1, p.2))
    | '\x7b' :: r =>
      (match skipJsonWs r with
       | '\x7d' :: r2 => some (Json.obj [], r2)
       | '"' :: r2 =>
         match parseStringBody (r2.length + 1) r2 with
         | some (key, rest) =>
           (match skipJsonWs rest with
            | ':' :: r3 =>
              match parseValue fuel (skipJsonWs r3) with
              | some (v, rest2) =>
                (parseFieldsAux (parseValue fuel) fuel rest2 [(key, v)]).map
                  (fun p => (Json.obj p.1, p.2))
              | none => none
            | _ => none)
         | none => none
       | _ => none)
    | '[' :: r =>
      (match skipJsonWs r with
       | ']' :: r2 => some (Json.arr [], r2)
       | _ =>
         match parseValue fuel (skipJsonWs r) with
         | some (v, rest) =>
           (parseItemsAux (parseValue fuel) fuel rest [v]).map
             (fun p => (Json.arr p.1, p.2))
         | none => none)
    | 't' :: 'r' :: 'u' :: 'e' :: r => some (Json.bool true, r)
    | 'f' :: 'a' :: 'l' :: 's' :: 'e' :: r => some (Json.bool false, r)
    | 'n' :: 'u' :: 'l' :: 'l' :: r => some (Json.null, r)
    | 'N' :: 'a' :: 'N' :: r => some (Json.num ['N', 'a', 'N'], r)
    | 'I' :: 'n' :: 'f' :: 'i' :: 'n' :: 'i' :: 't' :: 'y' :: r =>
      some (Json.num ['I', 'n', 'f'], r)
    | '-' :: 'I' :: 'n' :: 'f' :: 'i' :: 'n' :: 'i' :: 't' :: 'y' :: r =>
      some (Json.num ['-', 'I', 'n', 'f'], r)
    | _ => (parseNumber l).map (fun p => (Json.num p.1, p.2))

/-- `json.loads` on a whole text: leading whitespace skipped, one value,
then only whitespace may remain. -/
def parseJson (l : List Char) : Option Json :=
  match parseValue (l.length + 1) (skipJsonWs l) with
  | some (v, rest) => if (skipJsonWs rest).isEmpty then some v else none
  | none => none

/-- A candidate survives the `json.loads` validation of the extraction
ladder iff it parses. -/
def isValidJson (l : List Char) : Bool :=
  (parseJson l).isSome

/-! The extraction ladder of `extract_json_from_output` (`server.py:146`).
Each regex rung is modelled operationally; the accompanying comments record
why the scanner equals the `re.search` semantics of the pattern. -/

def fenceJsonLit : List Char :=
  '`' :: '`' :: '`' :: 'j' :: 's' :: 'o' :: 'n' :: []

def ticksLit : List Char :=
  ['`', '`', '`']

/-- Rung 1, `re.search(r'```json\s*(.*?)\s*```', cleaned, re.DOTALL)`
followed by `.group(1).strip()` (`server.py:158`).  The engine matches at
the first ````json`` that is followed (at or after its end) by a further
```` ``` ``; with `DOTALL` the lazy group stops at the first such closing
fence, and the greedy `\s*` on either side only moves whitespace between
the group and its surroundings, which the final `.strip()` erases either
way.  If the first ````json`` has no closing fence then no later one has
(any later ````json`` would itself contain a closing ```` ``` ``), so the
search fails. -/
def rung1 (s : List Char) : Option (List Char) :=
  match splitOnFirst fenceJsonLit s with
  | none => none
  | some (_, rest) =>
    match splitOnFirst ticksLit rest with
    | none => none
    | some (mid, _) => some (stripC mid)

/-- The literal `{"<key>":[`. -/
def singleLit (key : List Char) : List Char :=
  '\x7b' :: '"' :: (key ++ '"' :: ':' :: '[' :: [])

/-- Scan for the first `]}` on the current line (the lazy `.*?` of rungs 2
and 3 cannot cross a newline); returns the consumed middle. -/
def scanCloseSingle : List Char → Option (List Char)
  | [] => none
  | c :: cs =>
    if (']' :: '\x7d' :: []).isPrefixOf (c :: cs) then some []
    else if c = '\n' then none
    else (scanCloseSingle cs).map (fun m => c :: m)

/-- Rungs 2 and 3, `re.search(r'(\{"<key>":\[.*?\]\})', cleaned)` followed
by `.group(1).strip()` (`server.py:168` and `server.py:178`).  The engine
tries occurrences of the literal opening in order; at each, the lazy group
runs to the first `]}` with no intervening newline; the literal cannot
overlap itself, so on failure the search resumes after the occurrence. -/
def rungSingleAux (lit : List Char) : Nat → List Char → Option (List Char)
  | 0, _ => none
  | fuel + 1, s =>
    match splitOnFirst lit s with
    | none => none
    | some (_, rest) =>
      match scanCloseSingle rest with
      | some mid => some (stripC (lit ++ mid ++ (']' :: '\x7d' :: [])))
      | none => rungSingleAux lit fuel rest

def rungSingle (key s : List Char) : Option (List Char) :=
  rungSingleAux (singleLit key) (s.length + 1) s

/-- The literal `"<key>":`. -/
def multiKeyLit (key : List Char) : List Char :=
  '"' :: (key ++ '"' :: ':' :: [])

/-- Occurrences of `lit` reachable from the current position across
non-`}` characters only (the `[^}]*` of rungs 4 and 5); returns for each
occurrence the text after it, in order of occurrence. -/
def keyOccs (lit : List Char) : List Char → List (List Char)
  | [] => []
  | c :: cs =>
    if c = '\x7d' then []
    else
      let here := if lit.isPrefixOf (c :: cs) then [(c :: cs).drop lit.length] else []
      here ++ keyOccs lit cs

/-- Scan for the first `]` followed by optional whitespace and `}` (the
lazy `[\s\S]*?\]\s*\}` of rungs 4 and 5); returns the text after the
closing `}`. -/
def scanCloseMulti : List Char → Option (List Char)
  | [] => none
  | c :: cs =>
    if c = ']' then
      match cs.dropWhile isSpaceC with
      | '\x7d' :: r => some r
      | _ => scanCloseMulti cs
    else scanCloseMulti cs

/-- One match attempt of rungs 4 and 5 at a `{`: `rest` is the text after
the `{`.  The greedy `[^}]*` prefers the latest reachable key occurrence
and backtracks to earlier ones, so occurrences are tried latest first;
after the key, `\s*` then `[` must follow, and the lazy tail runs to the
first `]`-whitespace-`}`.  Returns the whole match (the group is the whole
match). -/
def rungMultiTry (lit : List Char) (rest : List Char) : Option (List Char) :=
  (keyOccs lit rest).reverse.findSome? fun s =>
    match s.dropWhile isSpaceC with
    | '[' :: tail =>
      match scanCloseMulti tail with
      | some rem => some ('\x7b' :: rest.take (rest.length - rem.length))
      | none => none
    | _ => none

/-- Rungs 4 and 5,
`re.search(r'(\{[^}]*"<key>":\s*\[[\s\S]*?\]\s*\})', cleaned)` followed by
`.group(1).strip()` (`server.py:188` and `server.py:198`): candidate `{`
positions are tried left to right. -/
def rungMultiAux (lit : List Char) : Nat → List Char → Option (List Char)
  | 0, _ => none
  | fuel + 1, s =>
    match splitOnFirst ['\x7b'] s with
    | none => none
    | some (_, rest) =>
      match rungMultiTry lit rest with
      | some cand => some (stripC cand)
      | none => rungMultiAux lit fuel rest

def rungMulti (key s : List Char) : Option (List Char) :=
  rungMultiAux (multiKeyLit key) (s.length + 1) s

def keyEval : List Char :=
  ('e' :: 'v' :: 'a' :: 'l' :: 'u' :: 'a' :: 't' :: 'i' :: 'o' :: 'n' :: []) ++
  ('_' :: 'r' :: 'e' :: 's' :: 'u' :: 'l' :: 't' :: 's' :: [])

def keyAnal : List Char :=
  ('a' :: 'n' :: 'a' :: 'l' :: 'y' :: 's' :: 'i' :: 's' :: []) ++
  ('_' :: 'r' :: 'e' :: 's' :: 'u' :: 'l' :: 't' :: 's' :: [])

/-- The `json.loads` validation applied to a rung candidate
(`server.py:161` etc.): an invalid candidate is discarded. -/
def validateCand : Option (List Char) → Option (List Char)
  | some s => if isValidJson s then some s else none
  | none => none

/-- `extract_json_from_output` (`server.py:146`): empty (falsy) input gives
`None`; otherwise the cleaned text is scanned by the five rungs in source
order, each accepted only if its candidate parses. -/
def extract_json_from_output (raw : List Char) : Option (List Char) :=
  if raw.isEmpty then none
  else
    let cleaned := clean_raw_output raw
    match validateCand (rung1 cleaned) with
    | some j => some j
    | none =>
      match validateCand (rungSingle keyEval cleaned) with
      | some j => some j
      | none =>
        match validateCand (rungSingle keyAnal cleaned) with
        | some j => some j
        | none =>
          match validateCand (rungMulti keyEval cleaned) with
          | some j => some j
          | none =>
            match validateCand (rungMulti keyAnal cleaned) with
            | some j => some j
            | none => none

/-! Tool analytics (`extract_tool_analytics`, `server.py:212`). -/

structure ToolExec where
  tool : List Char
  execution_time_ms : Nat
deriving DecidableEq

/-- The analytics dictionary built at `server.py:219`.  The derived
floating-point "seconds" entries (`execution_time_s`,
`total_execution_time_s`) are redundant rescalings of the millisecond
fields and are not modelled. -/
structure ToolAnalytics where
  tools_executed : List ToolExec
  total_execution_time : Nat
  tool_count : Nat
deriving DecidableEq

/-- `re.findall(r'Tool (\w+) execution time: (\d+)ms', raw)`: left-to-right
non-overlapping matches, resuming after each match. -/
def findToolMarkersF : Nat → List Char → List (List Char × Nat)
  | 0, _ => []
  | _ + 1, [] => []
  | fuel + 1, c :: cs =>
    match matchToolMarker (c :: cs) with
    | some (name, n, tail) => (name, n) :: findToolMarkersF fuel tail
    | none => findToolMarkersF fuel cs

def findToolMarkers (l : List Char) : List (List Char × Nat) :=
  findToolMarkersF l.length l

/-- The loop body of `server.py:229`: append one match and accumulate. -/
def analyticsStep (a : ToolAnalytics) (m : List Char × Nat) : ToolAnalytics :=
  { tools_executed := a.tools_executed ++ [⟨m.1, m.2⟩],
    total_execution_time := a.total_execution_time + m.2,
    tool_count := a.tool_count + 1 }

/-- `extract_tool_analytics` (`server.py:212`): `{}` (modelled `none`) on
falsy input, otherwise the accumulation loop over all matches; the
enclosing `try/except` cannot fire for these pure operations. -/
def extract_tool_analytics (raw : List Char) : Option ToolAnalytics :=
  if raw.isEmpty then none
  else some ((findToolMarkers raw).foldl analyticsStep ⟨[], 0, 0⟩)

/-! The branch guard (`checkout_branch`, `server.py:246`), the index-path
parser (`server.py:425`) and the per-task runner (`run_wingman_test`,
`server.py:351`).  External effects (the four subprocess invocations, the
clock, uuid generation and raw-output persistence) are supplied by an
explicit environment; the runner returns, along with the `TestResult`, a
trace of every raw-output-sink invocation and of which external steps
ran. -/

/-- Outcome of one `subprocess.run` call: normal completion with exit code
and captured output, `subprocess.TimeoutExpired`, or any other exception
(carrying its `str`). -/
inductive ProcResult where
  | completed (returncode : Int) (stdout stderr : List Char) : ProcResult
  | timedOut : ProcResult
  | excepted (msg : List Char) : ProcResult
deriving DecidableEq

def sqC : Char := Char.ofNat 39

def quoteSq (b : List Char) : List Char :=
  sqC :: (b ++ [sqC])

def intToChars : Int → List Char
  | Int.ofNat n => Nat.toDigits 10 n
  | Int.negSucc n => '-' :: Nat.toDigits 10 (n + 1)

def msgFailedList (stderr : List Char) : List Char :=
  "Failed to list branches: ".data ++ stderr

def msgBranchNotExist (b : List Char) : List Char :=
  "Branch ".data ++ quoteSq b ++ " does not exist in repository".data

def msgCheckoutOk (b : List Char) : List Char :=
  "Successfully checked out branch ".data ++ quoteSq b

def msgCheckoutFailed (b stderr : List Char) : List Char :=
  "Failed to checkout branch ".data ++ quoteSq b ++ ": ".data ++ stderr

def msgBranchTimeout (b : List Char) : List Char :=
  "Timeout while checking out branch ".data ++ quoteSq b

def msgBranchExc (b e : List Char) : List Char :=
  "Error checking out branch ".data ++ quoteSq b ++ ": ".data ++ e

/-- `checkout_branch` (`server.py:246`): list the branches (30s timeout),
require the name to occur as a local (`"  name"`/`"* name"` substring) or
remote-tracking (`"remotes/origin/name"` substring) ref, then run the
checkout (30s timeout).  `subprocess.TimeoutExpired` from either call and
any other exception are caught by the surrounding handlers. -/
def checkout_branch (lsRes ckRes : ProcResult) (branch_name : List Char) :
    Bool × List Char :=
  match lsRes with
  | ProcResult.timedOut => (false, msgBranchTimeout branch_name)
  | ProcResult.excepted e => (false, msgBranchExc branch_name e)
  | ProcResult.completed rc out err =>
    if rc ≠ 0 then (false, msgFailedList err)
    else
      if !(containsSub (' ' :: ' ' :: branch_name) out ||
            containsSub ('*' :: ' ' :: branch_name) out) &&
          !containsSub ("remotes/origin/".data ++ branch_name) out then
        (false, msgBranchNotExist branch_name)
      else
        match ckRes with
        | ProcResult.timedOut => (false, msgBranchTimeout branch_name)
        | ProcResult.excepted e => (false, msgBranchExc branch_name e)
        | ProcResult.completed rc2 _ err2 =>
          if rc2 = 0 then (true, msgCheckoutOk branch_name)
          else (false, msgCheckoutFailed branch_name err2)

/-- Python `s.split(sep)` (all occurrences, left to right). -/
def splitPyF (sep : List Char) : Nat → List Char → List (List Char)
  | 0, l => [l]
  | fuel + 1, l =>
    match splitOnFirst sep l with
    | none => [l]
    | some (pre, post) => pre :: splitPyF sep fuel post

def splitPy (sep l : List Char) : List (List Char) :=
  splitPyF sep (l.length + 1) l

def indexPathLit : List Char :=
  "INDEX_PATH=".data

/-- The fallback scan of `server.py:431`/`server.py:437`: the first line
containing `INDEX_PATH=` yields `line.split('INDEX_PATH=')[1].strip()`. -/
def scanIndexPathLines (stdout : List Char) : Option (List Char) :=
  (splitPy ['\n'] stdout).findSome? fun line =>
    if containsSub indexPathLit line then
      some (stripC (((splitPy indexPathLit line).drop 1).headD []))
    else none

/-- The index-path extraction of `server.py:425`: parse the create-index
stdout as JSON and read `output[0]['index_path']`; on a JSON parse
failure, a non-object top level, a missing/empty `output` entry or a
non-object first element (all of which reach the bare `except` or the
`else` branch) fall back to the `INDEX_PATH=` line scan.  A present but
non-string `index_path` value is modelled as absent (the source would
carry it into a subprocess environment, outside this model). -/
def parse_index_path (stdout : List Char) : Option (List Char) :=
  match parseJson stdout with
  | some (Json.obj fs) =>
    match jlookup fs ("output".data) with
    | some (Json.arr (Json.obj f2 :: _)) =>
      match jlookup f2 ("index_path".data) with
      | some (Json.str s) => some s
      | _ => none
    | some (Json.arr []) => scanIndexPathLines stdout
    | some _ => scanIndexPathLines stdout
    | none => scanIndexPathLines stdout
  | _ => scanIndexPathLines stdout

/-- Python truthiness of the optional index path (`server.py:527`). -/
def optTruthy : Option (List Char) → Bool
  | some s => !s.isEmpty
  | none => false

/-- Static configuration consumed by the runner (`config[...]` reads; the
source assumes these keys present). -/
structure ToolConfig where
  perplexity_key : List Char
  wingman_binary_path : List Char
  wingman_config_path : List Char
deriving DecidableEq

/-- External effects of one `run_wingman_test` call: outcomes of the four
subprocess invocations, one `datetime.now().isoformat()` reading (the
source takes several closely spaced readings; the claims only concern the
field being populated), the uuid for a caller-less session, the measured
duration, and whether `save_raw_output` persisted successfully. -/
structure RunEnv where
  branchList : ProcResult
  branchCheckout : ProcResult
  createIndex : ProcResult
  wingman : ProcResult
  now : List Char
  freshId : List Char
  elapsed : Nat
  saveOk : Bool
deriving DecidableEq

/-- One invocation of the raw-output sink `save_raw_output`
(`server.py:291`), as observed by the runner: the stdout text, stderr
text and success flag passed to it. -/
structure SinkCall where
  stdout : List Char
  stderr : List Char
  success : Bool
deriving DecidableEq

structure BranchCheckout where
  success : Bool
  message : List Char
deriving DecidableEq

/-- The `commands` entry of a result dictionary. -/
structure Commands where
  create_index : List Char
  wingman : List Char
  index_path : Option (List Char)
deriving DecidableEq

/-- The `output` entry of a result dictionary: `{}` on failure paths, the
parse of the extracted text on a successful extraction (`json.loads` of a
candidate the ladder already validated, so the `except` at `server.py:622`
is unreachable), or the raw-text fallback `{"raw_output": stdout}`. -/
inductive OutputVal where
  | emptyObj : OutputVal
  | jsonOf (extracted : List Char) : OutputVal
  | rawFallback (stdout : List Char) : OutputVal
deriving DecidableEq

/-- The result dictionary of `run_wingman_test`.  Keys that only some
paths include are `Option`s (`none` = key absent); `tool_analytics` is
`none` for the empty `{}` of failure paths. -/
structure TestResult where
  success : Bool
  output : OutputVal
  raw_output : List Char
  raw_error : List Char
  tool_analytics : Option ToolAnalytics
  error : Option (List Char)
  duration : Nat
  timestamp : List Char
  session_id : Option (List Char)
  branch_checkout : Option BranchCheckout
  index_creation_failed : Bool
  index_creation_output : Option (List Char)
  index_creation_error : Option (List Char)
  commands : Option Commands
  saved_files : Option Unit
deriving DecidableEq

/-- The runner's observable behaviour: its returned result, the calls it
made to the raw-output sink, and which external steps it invoked. -/
structure RunTrace where
  result : TestResult
  sinkCalls : List SinkCall
  ranCreateIndex : Bool
  ranAnalysis : Bool
deriving DecidableEq

def msgBranchCheckoutFailed (m : List Char) : List Char :=
  "Branch checkout failed: ".data ++ m

def msgIdxFail (rc : Int) : List Char :=
  "Index creation failed with exit code ".data ++ intToChars rc

def msgIdxTimeout : List Char :=
  "Index creation timed out after 60 seconds".data

def msgIdxExc (e : List Char) : List Char :=
  "Index creation failed with exception: ".data ++ e

def msgMissingPath : List Char :=
  "Index creation succeeded but no index path found".data

def msgNoPathInOutput : List Char :=
  "No index path found in successful output".data

def msgTestTimeout : List Char :=
  "Test timed out after 5 minutes".data

def ctxBinPath : List Char :=
  "/Users/sarangsharma/code/code-context/modules/code-context/code-context".data

def joinSpace (xs : List (List Char)) : List Char :=
  List.intercalate [' '] xs

def createIndexCmdStr (repo : List Char) : List Char :=
  joinSpace [ctxBinPath, "create_index".data, "-r".data, repo]

def wingmanCmdStr (cfg : ToolConfig) (inputs_path input_file sid : List Char) :
    List Char :=
  joinSpace [cfg.wingman_binary_path, "-v".data, "-c".data,
    cfg.wingman_config_path, "-p".data, inputs_path ++ '/' :: input_file,
    "-s".data, sid]

def notExecFail : List Char :=
  "Not executed due to index creation failure".data

def notExecTimeout : List Char :=
  "Not executed due to index creation timeout".data

def notExecExc : List Char :=
  "Not executed due to index creation exception".data

def notExecMissing : List Char :=
  "Not executed due to missing index path".data

/-- The analysis phase of `run_wingman_test` (`server.py:553` on): run the
wingman command; on completion persist the output, extract and assemble
the success/nonzero-exit response (`server.py:628`); the outer
`except subprocess.TimeoutExpired` (`server.py:655`) and
`except Exception` (`server.py:669`) handlers build the two terminal
dictionaries, in which `stdout_output` is still `""` because the
subprocess call raised before assigning it. -/
def runAnalysisPhase (cfg : ToolConfig) (env : RunEnv)
    (input_file_path inputs_path : List Char) (sid : List Char)
    (branchInfo : Option BranchCheckout) (ciCmd : List Char)
    (ip : List Char) : RunTrace :=
  let wmCmd := wingmanCmdStr cfg inputs_path input_file_path sid
  match env.wingman with
  | ProcResult.completed rc out err =>
    { result :=
        { success := rc = 0,
          output :=
            match extract_json_from_output out with
            | some js => OutputVal.jsonOf js
            | none => OutputVal.rawFallback out,
          raw_output := clean_raw_output out,
          raw_error := err,
          tool_analytics := extract_tool_analytics out,
          error := if rc = 0 then none else some err,
          duration := env.elapsed,
          timestamp := env.now,
          session_id := some sid,
          branch_checkout := branchInfo,
          index_creation_failed := false,
          index_creation_output := none,
          index_creation_error := none,
          commands := some ⟨ciCmd, wmCmd, some ip⟩,
          saved_files := if env.saveOk then some () else none },
      sinkCalls := [⟨out, err, rc = 0⟩],
      ranCreateIndex := true,
      ranAnalysis := true }
  | ProcResult.timedOut =>
    { result :=
        { success := false,
          output := OutputVal.emptyObj,
          raw_output := [],
          raw_error := msgTestTimeout,
          tool_analytics := none,
          error := some msgTestTimeout,
          duration := 300,
          timestamp := env.now,
          session_id := none,
          branch_checkout := none,
          index_creation_failed := false,
          index_creation_output := none,
          index_creation_error := none,
          commands := none,
          saved_files := none },
      sinkCalls := [⟨[], msgTestTimeout, false⟩],
      ranCreateIndex := true,
      ranAnalysis := true }
  | ProcResult.excepted e =>
    { result :=
        { success := false,
          output := OutputVal.emptyObj,
          raw_output := [],
          raw_error := e,
          tool_analytics := none,
          error := some e,
          duration := env.elapsed,
          timestamp := env.now,
          session_id := none,
          branch_checkout := none,
          index_creation_failed := false,
          index_creation_output := none,
          index_creation_error := none,
          commands := none,
          saved_files := none },
      sinkCalls := [⟨[], e, false⟩],
      ranCreateIndex := true,
      ranAnalysis := true }

/-- The index-creation phase of `run_wingman_test` (`server.py:398` on):
run create-index (60s timeout); on exit 0 parse the index path and, if it
is truthy, continue to the analysis phase, otherwise return the
missing-index-path dictionary (`server.py:534`), which — alone among the
failure terminals — performs no raw-output-sink call; nonzero exit,
timeout and exception return the dictionaries of `server.py:453`,
`server.py:480` and `server.py:507`. -/
def runIndexPhase (cfg : ToolConfig) (env : RunEnv)
    (repo_path input_file_path inputs_path : List Char) (sid : List Char)
    (branchInfo : Option BranchCheckout) : RunTrace :=
  let ciCmd := createIndexCmdStr repo_path
  match env.createIndex with
  | ProcResult.completed rc out err =>
    if rc = 0 then
      let ip := parse_index_path out
      if optTruthy ip then
        runAnalysisPhase cfg env input_file_path inputs_path sid branchInfo
          ciCmd (ip.getD [])
      else
        { result :=
            { success := false,
              output := OutputVal.emptyObj,
              raw_output := [],
              raw_error := msgMissingPath,
              tool_analytics := none,
              error := some msgMissingPath,
              duration := env.elapsed,
              timestamp := env.now,
              session_id := some sid,
              branch_checkout := none,
              index_creation_failed := true,
              index_creation_output := some out,
              index_creation_error := some msgNoPathInOutput,
              commands := some ⟨ciCmd, notExecMissing, none⟩,
              saved_files := none },
          sinkCalls := [],
          ranCreateIndex := true,
          ranAnalysis := false }
    else
      { result :=
          { success := false,
            output := OutputVal.emptyObj,
            raw_output := [],
            raw_error := msgIdxFail rc,
            tool_analytics := none,
            error := some (msgIdxFail rc),
            duration := env.elapsed,
            timestamp := env.now,
            session_id := some sid,
            branch_checkout := none,
            index_creation_failed := true,
            index_creation_output := some out,
            index_creation_error := some err,
            commands := some ⟨ciCmd, notExecFail, none⟩,
            saved_files := none },
        sinkCalls := [⟨out, err, false⟩],
        ranCreateIndex := true,
        ranAnalysis := false }
  | ProcResult.timedOut =>
    { result :=
        { success := false,
          output := OutputVal.emptyObj,
          raw_output := [],
          raw_error := msgIdxTimeout,
          tool_analytics := none,
          error := some msgIdxTimeout,
          duration := env.elapsed,
          timestamp := env.now,
          session_id := some sid,
          branch_checkout := none,
          index_creation_failed := true,
          index_creation_output := some [],
          index_creation_error := some msgIdxTimeout,
          commands := some ⟨ciCmd, notExecTimeout, none⟩,
          saved_files := none },
      sinkCalls := [⟨[], msgIdxTimeout, false⟩],
      ranCreateIndex := true,
      ranAnalysis := false }
  | ProcResult.excepted e =>
    { result :=
        { success := false,
          output := OutputVal.emptyObj,
          raw_output := [],
          raw_error := msgIdxExc e,
          tool_analytics := none,
          error := some (msgIdxExc e),
          duration := env.elapsed,
          timestamp := env.now,
          session_id := some sid,
          branch_checkout := none,
          index_creation_failed := true,
          index_creation_output := some [],
          index_creation_error := some (msgIdxExc e),
          commands := some ⟨ciCmd, notExecExc, none⟩,
          saved_files := none },
      sinkCalls := [⟨[], msgIdxExc e, false⟩],
      ranCreateIndex := true,
      ranAnalysis := false }

/-- `run_wingman_test` (`server.py:351`).  Every exception the body can
raise is either handled locally (branch guard, index creation) or caught
by the outer handlers modelled in `runAnalysisPhase`, so the function is
total: it always returns a result dictionary. -/
def run_wingman_test (cfg : ToolConfig) (env : RunEnv)
    (repo_path input_file_path inputs_path _output_path : List Char)
    (_run_number : Nat) (branch_name : Option (List Char))
    (sessionId : Option (List Char)) : RunTrace :=
  let sid := sessionId.getD env.freshId
  match branch_name with
  | some b =>
    match checkout_branch env.branchList env.branchCheckout b with
    | (true, _) =>
      runIndexPhase cfg env repo_path input_file_path inputs_path sid
        (some ⟨true, msgCheckoutOk b⟩)
    | (false, m) =>
      { result :=
          { success := false,
            output := OutputVal.emptyObj,
            raw_output := [],
            raw_error := msgBranchCheckoutFailed m,
            tool_analytics := none,
            error := some (msgBranchCheckoutFailed m),
            duration := env.elapsed,
            timestamp := env.now,
            session_id := some sid,
            branch_checkout := some ⟨false, m⟩,
            index_creation_failed := false,
            index_creation_output := none,
            index_creation_error := none,
            commands := none,
            saved_files := none },
        sinkCalls := [⟨[], msgBranchCheckoutFailed m, false⟩],
        ranCreateIndex := false,
        ranAnalysis := false }
  | none => runIndexPhase cfg env repo_path input_file_path inputs_path sid none

/-! The log broadcaster (`server.py:29`..`server.py:100`, `server.py:731`).
All mutation happens under `log_lock`, so the concurrent behaviour is a
sequence of atomic operations: an explicit state machine.  The clock
models `datetime.now()` (one tick per reading).  A queue put on the
unbounded `queue.Queue` of `server.py:68` cannot raise, so the
dead-subscriber pruning at `server.py:56` is unreachable and delivery is
total. -/

/-- A log record.  History records (`server.py:40`) carry no session id;
the copies delivered to subscriber queues (`server.py:51`) do, and get a
fresh timestamp reading. -/
structure LogEntry where
  ts : Nat
  msg : List Char
  sid : Option (List Char)
deriving DecidableEq

structure LogState where
  clock : Nat
  active_logs : List (List Char × List LogEntry)
  log_subscribers : List (List Char × List (List LogEntry))
deriving DecidableEq

def initLogState : LogState :=
  ⟨0, [], []⟩

/-- Association-list lookup (Python dict read; insertion order kept). -/
def alookup {α : Type} : List (List Char × α) → List Char → Option α
  | [], _ => none
  | (k, v) :: r, key => if k = key then some v else alookup r key

/-- Association-list write (Python dict write: replace in place, or append
a new key at the end). -/
def aset {α : Type} : List (List Char × α) → List Char → α → List (List Char × α)
  | [], key, v => [(key, v)]
  | (k, w) :: r, key, v =>
    if k = key then (key, v) :: r else (k, w) :: aset r key v

/-- Deliver one message to every subscriber queue of a session, in order;
each delivery takes its own `datetime.now()` reading (`server.py:52`). -/
def putAllQueues (c : Nat) (sid msg : List Char) :
    List (List LogEntry) → List (List LogEntry)
  | [] => []
  | q :: r => (q ++ [⟨c, msg, some sid⟩]) :: putAllQueues (c + 1) sid msg r

/-- `broadcast_log` (`server.py:34`): append to the session history, then
deliver to every currently attached subscriber. -/
def broadcast_log (session_id message : List Char) (st : LogState) : LogState :=
  let hist := (alookup st.active_logs session_id).getD []
  let logs2 := aset st.active_logs session_id (hist ++ [⟨st.clock, message, none⟩])
  match alookup st.log_subscribers session_id with
  | none =>
    { clock := st.clock + 1, active_logs := logs2,
      log_subscribers := st.log_subscribers }
  | some qs =>
    { clock := st.clock + 1 + qs.length, active_logs := logs2,
      log_subscribers :=
        aset st.log_subscribers session_id
          (putAllQueues (st.clock + 1) session_id message qs) }

/-- The subscription prefix of `generate_log_stream` (`server.py:63`..83):
under the lock, register a fresh queue and replay the existing history
records into it unchanged. -/
def attachSubscriber (session_id : List Char) (st : LogState) : LogState :=
  let qs := (alookup st.log_subscribers session_id).getD []
  let hist := (alookup st.active_logs session_id).getD []
  { clock := st.clock, active_logs := st.active_logs,
    log_subscribers := aset st.log_subscribers session_id (qs ++ [hist]) }

inductive LogEvent where
  | publish (sid msg : List Char) : LogEvent
  | attach (sid : List Char) : LogEvent

def stepLog (st : LogState) (e : LogEvent) : LogState :=
  match e with
  | LogEvent.publish sid msg => broadcast_log sid msg st
  | LogEvent.attach sid => attachSubscriber sid st

def histOf (st : LogState) (S : List Char) : List LogEntry :=
  (alookup st.active_logs S).getD []

def subsOf (st : LogState) (S : List Char) : List (List LogEntry) :=
  (alookup st.log_subscribers S).getD []

/-- The messages published to session `S` by a sequence of events, in
order. -/
def msgsTo (S : List Char) : List LogEvent → List (List Char)
  | [] => []
  | LogEvent.publish sid m :: r =>
    if sid = S then m :: msgsTo S r else msgsTo S r
  | LogEvent.attach _ :: r => msgsTo S r

/-- The message sequence of a queue or history. -/
def qmsgs (q : List LogEntry) : List (List Char) :=
  q.map (fun e => e.msg)

/-- `get_logs` (`server.py:731`): read `active_logs.get(session_id, [])`
under the lock and echo the session id; the state is returned to make the
absence of side effects a stated fact. -/
def get_logs (session_id : List Char) (st : LogState) :
    (List LogEntry × List Char) × LogState :=
  (((alookup st.active_logs session_id).getD [], session_id), st)

/-! The orchestrator (`run_all_tests`, `server.py:777`).  Repositories are
processed strictly sequentially; within a repository the expanded tasks go
to a bounded thread pool and are collected with `as_completed`.  The
collection loop at `server.py:809` first unpacks the 6-element task tuple
into five names — for every completion order this raises `ValueError` at
the first collected future, before the `try` that converts worker
exceptions, so the submission order is used below without loss. -/

inductive PyVal where
  | vstr (s : List Char) : PyVal
  | vnat (n : Nat) : PyVal
  | vnone : PyVal
deriving DecidableEq

structure RepoConfig where
  repo_path : List Char
  inputs_path : List Char
  output_path : List Char
  branch : Option (List Char)
deriving DecidableEq

structure SuiteConfig where
  repos : List RepoConfig
  run_count : Nat
  parallel_workers : Nat
deriving DecidableEq

/-- The 6-tuple built at `server.py:796`. -/
def taskTuple (r : RepoConfig) (input : List Char) (run : Nat) : List PyVal :=
  [PyVal.vstr r.repo_path, PyVal.vstr input, PyVal.vstr r.inputs_path,
   PyVal.vstr r.output_path, PyVal.vnat run,
   match r.branch with
   | some b => PyVal.vstr b
   | none => PyVal.vnone]

/-- Task expansion for one repository (`server.py:792`): input files ×
runs `1..run_count`. -/
def repoTasks (run_count : Nat) (inputFiles : List (List Char))
    (r : RepoConfig) : List (List PyVal) :=
  inputFiles.flatMap fun f =>
    (List.range run_count).map fun i => taskTuple r f (i + 1)

/-- A collected batch entry: a worker result tagged with repo, input file
and run number, or the synthetic failure entry of `server.py:821`. -/
inductive Tagged where
  | okR (repo input_file run_number : PyVal) (r : TestResult) : Tagged
  | synthetic (repo input_file run_number : PyVal) (error timestamp : List Char) : Tagged

/-- Python `a, b, c, d, e = task` on a tuple of another length raises
`ValueError`; the tuples of this program always have 6 elements. -/
def unpack5 (t : List PyVal) :
    Except (List Char) (PyVal × PyVal × PyVal × PyVal × PyVal) :=
  match t with
  | [a, b, c, d, e] => Except.ok (a, b, c, d, e)
  | _ => Except.error ("too many values to unpack (expected 5)".data)

/-- The collection loop of `server.py:809`: for each completed future,
unpack the task tuple (5 names), then convert a worker exception into a
synthetic failed entry.  An `Except.error` models an exception escaping
`run_all_tests` itself. -/
def collectRepo (outcomeOf : List PyVal → Except (List Char) TestResult)
    (now : List Char) : List (List PyVal) → Except (List Char) (List Tagged)
  | [] => Except.ok []
  | t :: ts =>
    match unpack5 t with
    | Except.error e => Except.error e
    | Except.ok (a, b, _, _, e5) =>
      let entry :=
        match outcomeOf t with
        | Except.ok r => Tagged.okR a b e5 r
        | Except.error exc => Tagged.synthetic a b e5 exc now
      match collectRepo outcomeOf now ts with
      | Except.ok rest => Except.ok (entry :: rest)
      | Except.error e => Except.error e

def runRepos (run_count : Nat) (inputFilesOf : List Char → List (List Char))
    (outcomeOf : List PyVal → Except (List Char) TestResult)
    (now : List Char) : List RepoConfig → Except (List Char) (List Tagged)
  | [] => Except.ok []
  | r :: rs =>
    match collectRepo outcomeOf now
        (repoTasks run_count (inputFilesOf r.inputs_path) r) with
    | Except.error e => Except.error e
    | Except.ok res1 =>
      match runRepos run_count inputFilesOf outcomeOf now rs with
      | Except.ok res2 => Except.ok (res1 ++ res2)
      | Except.error e => Except.error e

/-- `run_all_tests` (`server.py:777`): repositories strictly in
configuration order, each repository's tasks collected through the worker
pool. -/
def run_all_tests (cfg : SuiteConfig)
    (inputFilesOf : List Char → List (List Char))
    (outcomeOf : List PyVal → Except (List Char) TestResult)
    (now : List Char) : Except (List Char) (List Tagged) :=
  runRepos cfg.run_count inputFilesOf outcomeOf now cfg.repos

/-! Claim-side definitions (used to compare the source behaviour with the
spec text where they differ) and concrete inputs for the theorems. -/

/-- The rung candidates of the extraction ladder, in source order. -/
def ladderCandidates (cleaned : List Char) : List (Option (List Char)) :=
  [rung1 cleaned, rungSingle keyEval cleaned, rungSingle keyAnal cleaned,
   rungMulti keyEval cleaned, rungMulti keyAnal cleaned]

/-- Scan to the closing brace matching an already-open one (`depth` many
open), failing on a newline (single-line rung); textual brace counting,
which agrees with real brace matching on texts without braces inside
string literals.  Returns the text after the matching `}`. -/
def braceScan : Nat → List Char → Option (List Char)
  | _, [] => none
  | depth, c :: cs =>
    if c = '\n' then none
    else if c = '\x7b' then braceScan (depth + 1) cs
    else if c = '\x7d' then
      (if depth = 1 then some cs else braceScan (depth - 1) cs)
    else braceScan depth cs

/-- Modelled from the claim's wording for rungs 2 and 3: a single-line
object opening `{"<key>":[` whose candidate is "bounded by the first
matching brace pair" (the source instead stops at the first literal
`]}`). -/
def claimRungSingleAux (lit : List Char) : Nat → List Char → Option (List Char)
  | 0, _ => none
  | fuel + 1, s =>
    match splitOnFirst lit s with
    | none => none
    | some (_, rest) =>
      match braceScan 1 rest with
      | some rem => some (stripC (lit ++ rest.take (rest.length - rem.length)))
      | none => claimRungSingleAux lit fuel rest

def claimRungSingle (key s : List Char) : Option (List Char) :=
  claimRungSingleAux (singleLit key) (s.length + 1) s

/-- Modelled from the claim's wording: the extraction ladder as the claim
states it, identical to the source except that rungs 2 and 3 bound their
candidate by the first matching brace pair. -/
def claimLadderExtract (raw : List Char) : Option (List Char) :=
  if raw.isEmpty then none
  else
    let cleaned := clean_raw_output raw
    match validateCand (rung1 cleaned) with
    | some j => some j
    | none =>
      match validateCand (claimRungSingle keyEval cleaned) with
      | some j => some j
      | none =>
        match validateCand (claimRungSingle keyAnal cleaned) with
        | some j => some j
        | none =>
          match validateCand (rungMulti keyEval cleaned) with
          | some j => some j
          | none =>
            match validateCand (rungMulti keyAnal cleaned) with
            | some j => some j
            | none => none

/-- The fenced re-feed of the idempotence claim: ```` ```json ``, newline,
the extracted text, newline, ```` ``` ``. -/
def fencedWrap (j : List Char) : List Char :=
  fenceJsonLit ++ '\n' :: (j ++ '\n' :: ticksLit)

/-- Counterexample input for the idempotence claim: a fenced block whose
body contains `ThinkingThinking......`; one cleaning pass removes the
inner `Thinking...` and leaves `Thinking...` in the output, which a second
cleaning pass (on the re-feed) removes entirely. -/
def cx9raw : List Char :=
  "```json\n".data ++ "\x7b\"a\": \"ThinkingThinking......\"\x7d".data ++ "\n```".data

def cx9j0 : List Char :=
  "\x7b\"a\": \"Thinking...\"\x7d".data

def cx9j1 : List Char :=
  "\x7b\"a\": \"\"\x7d".data

/-- Counterexample input for the brace-pair reading of rung 2: a
single-line valid object under the `evaluation_results` key whose array
holds an object containing an array, so the first literal `]}` falls
before the matching close brace. -/
def cx4 : List Char :=
  "\x7b\"evaluation_results\":[\x7b\"a\":[1]\x7d]\x7d".data

/-- A fenced input on which re-extraction is exercised concretely. -/
def wit9raw : List Char :=
  "```json\n".data ++ "\x7b\"a\": 1\x7d".data ++ "\n```".data

def wit9j : List Char :=
  "\x7b\"a\": 1\x7d".data

/-- Concrete input of the analytics claim. -/
def c8input : List Char :=
  "Tool alpha execution time: 120ms\nToolbeta execution time: 80ms".data

/-- Concrete configuration and environments for the runner theorems. -/
def cfg0 : ToolConfig :=
  ⟨"pk".data, "/bin/wingman".data, "/cfg.yaml".data⟩

/-- Create-index stdout carrying an index path through the fallback line
scan. -/
def idxOkStdout : List Char :=
  "INDEX_PATH=/tmp/idx\n".data

def env0 : RunEnv :=
  { branchList := ProcResult.completed 0 [] [],
    branchCheckout := ProcResult.completed 0 [] [],
    createIndex := ProcResult.completed 0 idxOkStdout [],
    wingman := ProcResult.completed 0 [] [],
    now := "T0".data,
    freshId := "SID0".data,
    elapsed := 7,
    saveOk := true }

/-- Analysis exits nonzero with empty stderr. -/
def envC2 : RunEnv :=
  { env0 with wingman := ProcResult.completed 1 [] [] }

/-- Index creation exits 0 but its stdout (`{}`) carries no index path. -/
def envC3 : RunEnv :=
  { env0 with createIndex := ProcResult.completed 0 ("\x7b\x7d".data) [] }

/-- Branch listing raises. -/
def envC6 : RunEnv :=
  { env0 with branchList := ProcResult.excepted ("boom".data) }

/-- Analysis times out. -/
def envC7 : RunEnv :=
  { env0 with wingman := ProcResult.timedOut }

/-- Index creation exits nonzero. -/
def envIdxFail : RunEnv :=
  { env0 with createIndex := ProcResult.completed 2 ("o".data) ("e".data) }

def repoP : List Char := "/repo".data

def fileP : List Char := "case1.txt".data

def inputsP : List Char := "/inputs".data

def outP : List Char := "/out".data

/-- The branch-guard passed (either no branch requested or the checkout
succeeded): the guard condition under which the runner proceeds to index
creation. -/
def branchPassed (env : RunEnv) (b : Option (List Char)) : Prop :=
  b = none ∨ ∃ bn m, b = some bn ∧
    checkout_branch env.branchList env.branchCheckout bn = (true, m)

/-- A minimal worker result for the orchestrator theorem. -/
def okResult : TestResult :=
  { success := true, output := OutputVal.emptyObj, raw_output := [],
    raw_error := [], tool_analytics := none, error := none, duration := 0,
    timestamp := [], session_id := none, branch_checkout := none,
    index_creation_failed := false, index_creation_output := none,
    index_creation_error := none, commands := none, saved_files := none }

def repoC1 : RepoConfig :=
  ⟨"/repo".data, "/inputs".data, "/out".data, none⟩

def cfgC1 : SuiteConfig :=
  ⟨[repoC1], 1, 3⟩


/-! Helper facts: the single-pass scanners shrink their input, so the
length fuel of the wrappers above is always sufficient. -/

theorem length_dropWhile_le (p : Char → Bool) (l : List Char) :
    (l.dropWhile p).length ≤ l.length := by
  induction l with
  | nil => simp
  | cons a l ih =>
    rw [List.dropWhile_cons]
    split
    · exact Nat.le_trans ih (by simp)
    · simp

theorem isPrefixOf_length_le {p l : List Char} (h : p.isPrefixOf l) :
    p.length ≤ l.length :=
  (List.isPrefixOf_iff_prefix.1 h).length_le

theorem matchAnsi_shrinks {l tail : List Char} (h : matchAnsi l = some tail) :
    tail.length < l.length := by
  unfold matchAnsi at h
  split at h
  · next rest =>
    have hd := length_dropWhile_le (fun d => isDigitC d || d = ';') rest
    split at h <;> simp_all <;> omega
  · simp at h

theorem matchSpinThink_shrinks {l tail : List Char}
    (h : matchSpinThink l = some tail) : tail.length < l.length := by
  unfold matchSpinThink at h
  split at h
  · next c cs =>
    have hd := length_dropWhile_le isSpaceC cs
    split at h
    · split at h
      · simp only [Option.some.injEq] at h
        subst h
        simp only [List.length_drop, List.length_cons, thinkingLit]
        simp only [List.length_cons, List.length_nil]
        omega
      · simp at h
    · simp at h
  · simp at h

theorem matchToolMarker_shrinks {l name tail : List Char} {n : Nat}
    (h : matchToolMarker l = some (name, n, tail)) :
    tail.length < l.length := by
  unfold matchToolMarker at h
  simp only at h
  split at h
  · next hpre =>
    split at h
    · simp at h
    · split at h
      · split at h
        · simp at h
        · split at h
          · next heq =>
            simp only [Option.some.injEq, Prod.mk.injEq] at h
            obtain ⟨-, -, rfl⟩ := h
            have hp : (5 : Nat) ≤ l.length := by
              simpa using isPrefixOf_length_le hpre
            have h4 := length_dropWhile_le isWordC (l.drop 5)
            have h5 := length_dropWhile_le isDigitC
              (((l.drop 5).dropWhile isWordC).drop 17)
            rw [heq] at h5
            simp only [List.length_drop, List.length_cons] at h4 h5 ⊢
            omega
          · simp at h
      · simp at h
  · simp at h

theorem matchBlankRun_shrinks {l tail : List Char}
    (h : matchBlankRun l = some tail) : tail.length < l.length := by
  unfold matchBlankRun at h
  split at h
  · next cs =>
    split at h
    · simp only [Option.some.injEq] at h
      subst h
      simp only [List.length_drop, List.length_cons]
      omega
    · simp at h
  · simp at h

/-! Theorems settling the frozen claims, with their supporting lemmas. -/

/-- Claim C1 (code-bug evidence): with one configured repository, one
input file and run count 1 there is exactly one expanded task, yet
`run_all_tests` returns no result list at all: the five-name unpacking of
the 6-element task tuple at `server.py:811` raises `ValueError` at the
first collected future — before the `try` that converts worker exceptions
— for a succeeding worker and a crashing worker alike. -/
theorem claim_C1_unpack_valueerror :
    (repoTasks cfgC1.run_count ["a.txt".data] repoC1).length = 1 ∧
    run_all_tests cfgC1 (fun _ => ["a.txt".data])
        (fun _ => Except.ok okResult) ("T0".data)
      = Except.error ("too many values to unpack (expected 5)".data) ∧
    run_all_tests cfgC1 (fun _ => ["a.txt".data])
        (fun _ => Except.error ("worker crash".data)) ("T0".data)
      = Except.error ("too many values to unpack (expected 5)".data) :=
  ⟨rfl, rfl, rfl⟩

/-- Claim C10: reading the history of a session nothing was ever published
to returns an empty log list with the session id echoed back, raises
nothing, and leaves the broadcaster state untouched. -/
theorem claim_C10_get_logs_unknown (st : LogState) (sid : List Char)
    (h : alookup st.active_logs sid = none) :
    get_logs sid st = (([], sid), st) := by
  unfold get_logs
  rw [h]
  rfl

theorem claim_C10_get_logs_unknown_witness :
    get_logs ("s1".data) initLogState = (([], "s1".data), initLogState) :=
  claim_C10_get_logs_unknown initLogState ("s1".data) rfl

theorem analytics_foldl_inv (ms : List (List Char × Nat)) (a : ToolAnalytics)
    (h1 : a.total_execution_time
      = (a.tools_executed.map (fun t => t.execution_time_ms)).sum)
    (h2 : a.tool_count = a.tools_executed.length) :
    (ms.foldl analyticsStep a).total_execution_time
      = ((ms.foldl analyticsStep a).tools_executed.map
          (fun t => t.execution_time_ms)).sum ∧
    (ms.foldl analyticsStep a).tool_count
      = (ms.foldl analyticsStep a).tools_executed.length := by
  induction ms generalizing a with
  | nil => exact ⟨h1, h2⟩
  | cons m r ih =>
    simp only [List.foldl_cons]
    exact ih _ (by simp [analyticsStep, h1]) (by simp [analyticsStep, h2])

/-- Claim C8: on `"Tool alpha execution time: 120ms\nToolbeta execution
time: 80ms"` the analytics report exactly one invocation — `alpha`,
120ms — totalling 120ms (`Toolbeta` does not match the marker), and in
general the reported total is the sum of the reported durations and the
count their number, in order of appearance. -/
theorem claim_C8_analytics_marker :
    extract_tool_analytics c8input
      = some ⟨[⟨"alpha".data, 120⟩], 120, 1⟩ ∧
    ∀ raw a, extract_tool_analytics raw = some a →
      a.total_execution_time
        = (a.tools_executed.map (fun t => t.execution_time_ms)).sum ∧
      a.tool_count = a.tools_executed.length := by
  constructor
  · decide
  · intro raw a h
    unfold extract_tool_analytics at h
    split at h
    · simp at h
    · simp only [Option.some.injEq] at h
      subst h
      exact analytics_foldl_inv _ _ rfl rfl

theorem claim_C8_analytics_marker_witness :
    ∃ a, extract_tool_analytics c8input = some a ∧
      a.total_execution_time
        = (a.tools_executed.map (fun t => t.execution_time_ms)).sum ∧
      a.tool_count = a.tools_executed.length :=
  ⟨_, claim_C8_analytics_marker.1,
    claim_C8_analytics_marker.2 c8input _ claim_C8_analytics_marker.1⟩

/-- Claim C2 (counterexample): when the analysis exits nonzero with empty
stderr, the result has `success = false` but its `error` field is the
empty string — not the non-empty error the claim requires on every failure
path. -/
theorem claim_C2_counterexample :
    (run_wingman_test cfg0 envC2 repoP fileP inputsP outP 1 none
        none).result.success = false ∧
    (run_wingman_test cfg0 envC2 repoP fileP inputsP outP 1 none
        none).result.error = some [] := by
  decide

/-- Claim C3 (counterexample): when index creation exits 0 but no index
path can be parsed from its stdout, the runner returns a failed result
without ever invoking the raw-output sink. -/
theorem claim_C3_counterexample :
    (run_wingman_test cfg0 envC3 repoP fileP inputsP outP 1 none
        none).result.success = false ∧
    (run_wingman_test cfg0 envC3 repoP fileP inputsP outP 1 none
        none).result.error = some msgMissingPath ∧
    (run_wingman_test cfg0 envC3 repoP fileP inputsP outP 1 none
        none).sinkCalls = [] := by
  decide

/-- Claim C7 (counterexample): on the analysis-timeout path the returned
result carries no session id, although one was supplied. -/
theorem claim_C7_counterexample :
    (run_wingman_test cfg0 envC7 repoP fileP inputsP outP 1 none
        (some ("sess9".data))).result.session_id = none ∧
    (run_wingman_test cfg0 envC7 repoP fileP inputsP outP 1 none
        (some ("sess9".data))).result.success = false := by
  decide

/-- Claim C4 (counterexample): on a single-line valid object under the
`evaluation_results` key whose candidate "bounded by the first matching
brace pair" would parse, the source returns `none` — its rung 2 stops at
the first literal `]}` instead, and every later rung also fails. -/
theorem claim_C4_counterexample :
    extract_json_from_output cx4 = none ∧
    claimLadderExtract cx4 = some cx4 ∧
    isValidJson cx4 = true := by
  refine ⟨by decide, by decide, by decide⟩

/-- Claim C9 (counterexample): extraction succeeds on `cx9raw` with body
`{"a": "Thinking..."}`, but re-feeding that text in a fenced block returns
`{"a": ""}` — cleaning strips the `Thinking...` the first pass had
recreated — so the structured value differs. -/
theorem claim_C9_counterexample :
    extract_json_from_output cx9raw = some cx9j0 ∧
    extract_json_from_output (fencedWrap cx9j0) = some cx9j1 ∧
    cx9j1 ≠ cx9j0 ∧
    (parseJson cx9j1).map (jStrAt ("a".data))
      ≠ (parseJson cx9j0).map (jStrAt ("a".data)) := by
  refine ⟨by decide, by decide, by decide, by decide⟩

theorem checkout_branch_fail_reason {ls ck : ProcResult} {b m : List Char}
    (h : checkout_branch ls ck b = (false, m)) :
    (∃ e, m = msgFailedList e) ∨ m = msgBranchNotExist b ∨
    (∃ e, m = msgCheckoutFailed b e) ∨ m = msgBranchTimeout b ∨
    (∃ e, m = msgBranchExc b e) := by
  cases ls with
  | timedOut =>
    simp only [checkout_branch, Prod.mk.injEq, true_and] at h
    subst h
    exact Or.inr (Or.inr (Or.inr (Or.inl rfl)))
  | excepted e =>
    simp only [checkout_branch, Prod.mk.injEq, true_and] at h
    subst h
    exact Or.inr (Or.inr (Or.inr (Or.inr ⟨e, rfl⟩)))
  | completed rc out err =>
    simp only [checkout_branch] at h
    by_cases hrc : rc ≠ 0
    · rw [if_pos hrc] at h
      simp only [Prod.mk.injEq, true_and] at h
      subst h
      exact Or.inl ⟨err, rfl⟩
    · rw [if_neg hrc] at h
      by_cases hex : (!(containsSub (' ' :: ' ' :: b) out ||
          containsSub ('*' :: ' ' :: b) out) &&
          !containsSub ("remotes/origin/".data ++ b) out) = true
      · rw [if_pos hex] at h
        simp only [Prod.mk.injEq, true_and] at h
        subst h
        exact Or.inr (Or.inl rfl)
      · rw [if_neg hex] at h
        cases ck with
        | timedOut =>
          dsimp only at h
          simp only [Prod.mk.injEq, true_and] at h
          subst h
          exact Or.inr (Or.inr (Or.inr (Or.inl rfl)))
        | excepted e =>
          dsimp only at h
          simp only [Prod.mk.injEq, true_and] at h
          subst h
          exact Or.inr (Or.inr (Or.inr (Or.inr ⟨e, rfl⟩)))
        | completed rc2 out2 err2 =>
          dsimp only at h
          by_cases hrc2 : rc2 = 0
          · rw [if_pos hrc2] at h
            simp only [Prod.mk.injEq] at h
            exact absurd h.1 (by decide)
          · rw [if_neg hrc2] at h
            simp only [Prod.mk.injEq, true_and] at h
            subst h
            exact Or.inr (Or.inr (Or.inl ⟨err2, rfl⟩))

/-- Claim C6: a task whose branch checkout fails never reaches the
index-creation or analysis step; its result records
`branch_checkout.success = false` with the checkout's concrete failure
message, the overall failure, and the prefixed error; the message is one
of the five concrete reasons of `checkout_branch`. -/
theorem claim_C6_branch_guard (cfg : ToolConfig) (env : RunEnv)
    (rp fp ip op : List Char) (rn : Nat) (sidq : Option (List Char))
    (b m : List Char)
    (h : checkout_branch env.branchList env.branchCheckout b = (false, m)) :
    ∀ t : RunTrace, t = run_wingman_test cfg env rp fp ip op rn (some b) sidq →
      t.ranCreateIndex = false ∧ t.ranAnalysis = false ∧
      t.result.branch_checkout = some ⟨false, m⟩ ∧
      t.result.success = false ∧
      t.result.error = some (msgBranchCheckoutFailed m) ∧
      ((∃ e, m = msgFailedList e) ∨ m = msgBranchNotExist b ∨
       (∃ e, m = msgCheckoutFailed b e) ∨ m = msgBranchTimeout b ∨
       (∃ e, m = msgBranchExc b e)) := by
  intro t ht
  subst ht
  unfold run_wingman_test
  dsimp only
  rw [h]
  exact ⟨rfl, rfl, rfl, rfl, rfl, checkout_branch_fail_reason h⟩

theorem claim_C6_branch_guard_witness :
    checkout_branch envC6.branchList envC6.branchCheckout ("dev".data)
      = (false, msgBranchExc ("dev".data) ("boom".data)) ∧
    (run_wingman_test cfg0 envC6 repoP fileP inputsP outP 1
        (some ("dev".data)) none).ranCreateIndex = false ∧
    (run_wingman_test cfg0 envC6 repoP fileP inputsP outP 1
        (some ("dev".data)) none).result.branch_checkout
      = some ⟨false, msgBranchExc ("dev".data) ("boom".data)⟩ := by
  have h : checkout_branch envC6.branchList envC6.branchCheckout ("dev".data)
      = (false, msgBranchExc ("dev".data) ("boom".data)) := by decide
  have hall := claim_C6_branch_guard cfg0 envC6 repoP fileP inputsP outP 1
    none ("dev".data) (msgBranchExc ("dev".data) ("boom".data)) h _ rfl
  exact ⟨h, hall.1, hall.2.2.1⟩

theorem runAnalysisPhase_spec (cfg : ToolConfig) (env : RunEnv)
    (fp ip sid : List Char) (bi : Option BranchCheckout) (ci ipath : List Char) :
    ∀ t : RunTrace, t = runAnalysisPhase cfg env fp ip sid bi ci ipath →
      t.ranCreateIndex = true ∧ t.ranAnalysis = true ∧
      t.result.timestamp = env.now ∧
      ((∃ rc out err, env.wingman = ProcResult.completed rc out err ∧
          t.result.success = decide (rc = 0) ∧
          t.result.error = (if rc = 0 then none else some err) ∧
          t.result.session_id = some sid ∧
          t.sinkCalls = [⟨out, err, decide (rc = 0)⟩]) ∨
       (env.wingman = ProcResult.timedOut ∧ t.result.success = false ∧
          t.result.error = some msgTestTimeout ∧ t.result.session_id = none ∧
          t.sinkCalls = [⟨[], msgTestTimeout, false⟩]) ∨
       (∃ e, env.wingman = ProcResult.excepted e ∧ t.result.success = false ∧
          t.result.error = some e ∧ t.result.session_id = none ∧
          t.sinkCalls = [⟨[], e, false⟩])) := by
  intro t ht
  subst ht
  obtain ⟨bl, bc, cidx, wm, nowv, fid, el, sv⟩ := env
  cases wm with
  | completed rc out err =>
    exact ⟨rfl, rfl, rfl, Or.inl ⟨rc, out, err, rfl, rfl, rfl, rfl, rfl⟩⟩
  | timedOut =>
    exact ⟨rfl, rfl, rfl, Or.inr (Or.inl ⟨rfl, rfl, rfl, rfl, rfl⟩)⟩
  | excepted e =>
    exact ⟨rfl, rfl, rfl, Or.inr (Or.inr ⟨e, rfl, rfl, rfl, rfl, rfl⟩)⟩

theorem runIndexPhase_spec (cfg : ToolConfig) (env : RunEnv)
    (rp fp ip sid : List Char) (bi : Option BranchCheckout) :
    ∀ t : RunTrace, t = runIndexPhase cfg env rp fp ip sid bi →
      t.ranCreateIndex = true ∧ t.result.timestamp = env.now ∧
      ((∃ rc out err, env.createIndex = ProcResult.completed rc out err ∧
          rc = 0 ∧ optTruthy (parse_index_path out) = true ∧
          t = runAnalysisPhase cfg env fp ip sid bi (createIndexCmdStr rp)
            ((parse_index_path out).getD [])) ∨
       (∃ rc out err, env.createIndex = ProcResult.completed rc out err ∧
          rc = 0 ∧ optTruthy (parse_index_path out) = false ∧
          t.ranAnalysis = false ∧ t.result.success = false ∧
          t.result.error = some msgMissingPath ∧
          t.result.session_id = some sid ∧ t.sinkCalls = []) ∨
       (∃ rc out err, env.createIndex = ProcResult.completed rc out err ∧
          rc ≠ 0 ∧ t.ranAnalysis = false ∧ t.result.success = false ∧
          t.result.error = some (msgIdxFail rc) ∧
          t.result.session_id = some sid ∧
          t.sinkCalls = [⟨out, err, false⟩]) ∨
       (env.createIndex = ProcResult.timedOut ∧ t.ranAnalysis = false ∧
          t.result.success = false ∧ t.result.error = some msgIdxTimeout ∧
          t.result.session_id = some sid ∧
          t.sinkCalls = [⟨[], msgIdxTimeout, false⟩]) ∨
       (∃ e, env.createIndex = ProcResult.excepted e ∧ t.ranAnalysis = false ∧
          t.result.success = false ∧ t.result.error = some (msgIdxExc e) ∧
          t.result.session_id = some sid ∧
          t.sinkCalls = [⟨[], msgIdxExc e, false⟩])) := by
  intro t ht
  subst ht
  obtain ⟨bl, bc, cidx, wm, nowv, fid, el, sv⟩ := env
  cases cidx with
  | completed rc out err =>
    by_cases hrc : rc = 0
    · by_cases hip : optTruthy (parse_index_path out) = true
      · have e1 : runIndexPhase cfg ⟨bl, bc, ProcResult.completed rc out err,
            wm, nowv, fid, el, sv⟩ rp fp ip sid bi
            = runAnalysisPhase cfg ⟨bl, bc, ProcResult.completed rc out err,
              wm, nowv, fid, el, sv⟩ fp ip sid bi (createIndexCmdStr rp)
              ((parse_index_path out).getD []) := by
          dsimp only [runIndexPhase]
          rw [if_pos hrc, if_pos hip]
        obtain ⟨h1, h2, h3, -⟩ := runAnalysisPhase_spec cfg
          ⟨bl, bc, ProcResult.completed rc out err, wm, nowv, fid, el, sv⟩
          fp ip sid bi (createIndexCmdStr rp) ((parse_index_path out).getD [])
          _ rfl
        rw [e1]
        exact ⟨h1, h3, Or.inl ⟨rc, out, err, rfl, hrc, hip, rfl⟩⟩
      · have hip' : optTruthy (parse_index_path out) = false := by
          revert hip
          cases optTruthy (parse_index_path out) <;> simp
        have e1 : runIndexPhase cfg ⟨bl, bc, ProcResult.completed rc out err,
            wm, nowv, fid, el, sv⟩ rp fp ip sid bi
            = { result :=
                  { success := false, output := OutputVal.emptyObj,
                    raw_output := [], raw_error := msgMissingPath,
                    tool_analytics := none, error := some msgMissingPath,
                    duration := el, timestamp := nowv,
                    session_id := some sid, branch_checkout := none,
                    index_creation_failed := true,
                    index_creation_output := some out,
                    index_creation_error := some msgNoPathInOutput,
                    commands := some ⟨createIndexCmdStr rp, notExecMissing, none⟩,
                    saved_files := none },
                sinkCalls := [], ranCreateIndex := true,
                ranAnalysis := false } := by
          dsimp only [runIndexPhase]
          rw [if_pos hrc, if_neg (by simp [hip'])]
        rw [e1]
        exact ⟨rfl, rfl, Or.inr (Or.inl
          ⟨rc, out, err, rfl, hrc, hip', rfl, rfl, rfl, rfl, rfl⟩)⟩
    · have e1 : runIndexPhase cfg ⟨bl, bc, ProcResult.completed rc out err,
          wm, nowv, fid, el, sv⟩ rp fp ip sid bi
          = { result :=
                { success := false, output := OutputVal.emptyObj,
                  raw_output := [], raw_error := msgIdxFail rc,
                  tool_analytics := none, error := some (msgIdxFail rc),
                  duration := el, timestamp := nowv,
                  session_id := some sid, branch_checkout := none,
                  index_creation_failed := true,
                  index_creation_output := some out,
                  index_creation_error := some err,
                  commands := some ⟨createIndexCmdStr rp, notExecFail, none⟩,
                  saved_files := none },
              sinkCalls := [⟨out, err, false⟩], ranCreateIndex := true,
              ranAnalysis := false } := by
        dsimp only [runIndexPhase]
        rw [if_neg hrc]
      rw [e1]
      exact ⟨rfl, rfl, Or.inr (Or.inr (Or.inl
        ⟨rc, out, err, rfl, hrc, rfl, rfl, rfl, rfl, rfl⟩))⟩
  | timedOut =>
    exact ⟨rfl, rfl, Or.inr (Or.inr (Or.inr (Or.inl
      ⟨rfl, rfl, rfl, rfl, rfl, rfl⟩)))⟩
  | excepted e =>
    exact ⟨rfl, rfl, Or.inr (Or.inr (Or.inr (Or.inr
      ⟨e, rfl, rfl, rfl, rfl, rfl, rfl⟩)))⟩

theorem run_wingman_test_spec (cfg : ToolConfig) (env : RunEnv)
    (rp fp ip op : List Char) (rn : Nat) (b sidq : Option (List Char)) :
    ∀ t : RunTrace, t = run_wingman_test cfg env rp fp ip op rn b sidq →
      ((∃ bn m, b = some bn ∧
          checkout_branch env.branchList env.branchCheckout bn = (false, m) ∧
          t.ranCreateIndex = false ∧ t.ranAnalysis = false ∧
          t.result.timestamp = env.now ∧ t.result.success = false ∧
          t.result.error = some (msgBranchCheckoutFailed m) ∧
          t.result.session_id = some (sidq.getD env.freshId) ∧
          t.sinkCalls = [⟨[], msgBranchCheckoutFailed m, false⟩]) ∨
       (branchPassed env b ∧
          t = runIndexPhase cfg env rp fp ip (sidq.getD env.freshId)
            (match b with
             | some bn => some ⟨true, msgCheckoutOk bn⟩
             | none => none))) := by
  intro t ht
  subst ht
  cases b with
  | none =>
    exact Or.inr ⟨Or.inl rfl, rfl⟩
  | some bn =>
    rcases hcb : checkout_branch env.branchList env.branchCheckout bn with ⟨ok, m⟩
    cases ok with
    | true =>
      refine Or.inr ⟨Or.inr ⟨bn, m, rfl, hcb⟩, ?_⟩
      unfold run_wingman_test
      dsimp only
      rw [hcb]
    | false =>
      refine Or.inl ⟨bn, m, rfl, hcb, ?_, ?_, ?_, ?_, ?_, ?_, ?_⟩ <;>
        · unfold run_wingman_test
          dsimp only
          rw [hcb]

theorem msgBranchCheckoutFailed_ne_nil (m : List Char) :
    msgBranchCheckoutFailed m ≠ [] := by
  unfold msgBranchCheckoutFailed
  intro h
  exact absurd (List.append_eq_nil.mp h).1 (by decide)

theorem msgIdxFail_ne_nil (rc : Int) : msgIdxFail rc ≠ [] := by
  unfold msgIdxFail
  intro h
  exact absurd (List.append_eq_nil.mp h).1 (by decide)

theorem msgIdxExc_ne_nil (e : List Char) : msgIdxExc e ≠ [] := by
  unfold msgIdxExc
  intro h
  exact absurd (List.append_eq_nil.mp h).1 (by decide)

theorem msgMissingPath_ne_nil : msgMissingPath ≠ [] := by
  decide

theorem msgIdxTimeout_ne_nil : msgIdxTimeout ≠ [] := by
  decide

/-- Claim C2, amended: the runner is total and every failure path yields
`success = false` with the `error` field set; the error string is moreover
non-empty on every failure path that does not reach the analysis step,
while on the analysis step it is exactly the captured stderr (nonzero
exit, possibly empty), the fixed timeout message, or the exception text
(possibly empty). -/
theorem claim_C2_error_fields (cfg : ToolConfig) (env : RunEnv)
    (rp fp ip op : List Char) (rn : Nat) (b sidq : Option (List Char)) :
    ∀ t : RunTrace, t = run_wingman_test cfg env rp fp ip op rn b sidq →
      (t.result.success = false → ∃ m, t.result.error = some m) ∧
      (t.result.success = false → t.ranAnalysis = false →
        ∃ m, t.result.error = some m ∧ m ≠ []) ∧
      (t.ranAnalysis = true →
        ((∃ rc out err, env.wingman = ProcResult.completed rc out err ∧
            t.result.error = (if rc = 0 then none else some err)) ∨
         (env.wingman = ProcResult.timedOut ∧
            t.result.error = some msgTestTimeout) ∨
         (∃ e, env.wingman = ProcResult.excepted e ∧
            t.result.error = some e))) := by
  intro t ht
  rcases run_wingman_test_spec cfg env rp fp ip op rn b sidq t ht with
    ⟨bn, m, hb, hcb, hrci, hra, hts, hsucc, herr, hsid, hsink⟩ | ⟨hbp, hidx⟩
  · exact ⟨fun _ => ⟨_, herr⟩,
      fun _ _ => ⟨_, herr, msgBranchCheckoutFailed_ne_nil m⟩,
      fun hca => absurd (hra.symm.trans hca) (by decide)⟩
  · rcases runIndexPhase_spec cfg env rp fp ip _ _ t hidx with ⟨hrci, hts, hcase⟩
    rcases hcase with
      ⟨rc, out, err, hci, hrc, hip, hteq⟩ |
      ⟨rc, out, err, hci, hrc, hip, hra, hsucc, herr, hsid, hsink⟩ |
      ⟨rc, out, err, hci, hrc, hra, hsucc, herr, hsid, hsink⟩ |
      ⟨hci, hra, hsucc, herr, hsid, hsink⟩ |
      ⟨e, hci, hra, hsucc, herr, hsid, hsink⟩
    · rcases runAnalysisPhase_spec cfg env fp ip _ _ _ _ t hteq with
        ⟨-, hra, -, hwcase⟩
      rcases hwcase with
        ⟨rc2, out2, err2, hwm, hsucc, herr, hsid, hsink⟩ |
        ⟨hwm, hsucc, herr, hsid, hsink⟩ |
        ⟨e, hwm, hsucc, herr, hsid, hsink⟩
      · refine ⟨?_, ?_, ?_⟩
        · intro hs
          rw [herr]
          by_cases h0 : rc2 = 0
          · rw [hsucc, h0] at hs
            exact absurd hs (by decide)
          · rw [if_neg h0]
            exact ⟨err2, rfl⟩
        · intro _ hra0
          exact absurd (hra.symm.trans hra0) (by decide)
        · exact fun _ => Or.inl ⟨rc2, out2, err2, hwm, herr⟩
      · exact ⟨fun _ => ⟨_, herr⟩,
          fun _ hra0 => absurd (hra.symm.trans hra0) (by decide),
          fun _ => Or.inr (Or.inl ⟨hwm, herr⟩)⟩
      · exact ⟨fun _ => ⟨_, herr⟩,
          fun _ hra0 => absurd (hra.symm.trans hra0) (by decide),
          fun _ => Or.inr (Or.inr ⟨e, hwm, herr⟩)⟩
    · exact ⟨fun _ => ⟨_, herr⟩,
        fun _ _ => ⟨_, herr, msgMissingPath_ne_nil⟩,
        fun hca => absurd (hra.symm.trans hca) (by decide)⟩
    · exact ⟨fun _ => ⟨_, herr⟩,
        fun _ _ => ⟨_, herr, msgIdxFail_ne_nil rc⟩,
        fun hca => absurd (hra.symm.trans hca) (by decide)⟩
    · exact ⟨fun _ => ⟨_, herr⟩,
        fun _ _ => ⟨_, herr, msgIdxTimeout_ne_nil⟩,
        fun hca => absurd (hra.symm.trans hca) (by decide)⟩
    · exact ⟨fun _ => ⟨_, herr⟩,
        fun _ _ => ⟨_, herr, msgIdxExc_ne_nil e⟩,
        fun hca => absurd (hra.symm.trans hca) (by decide)⟩

theorem claim_C2_error_fields_witness :
    ∃ m, (run_wingman_test cfg0 envIdxFail repoP fileP inputsP outP 1 none
      none).result.error = some m ∧ m ≠ [] := by
  have h := claim_C2_error_fields cfg0 envIdxFail repoP fileP inputsP outP 1
    none none _ rfl
  exact h.2.1 (by decide) (by decide)

/-- Claim C3, amended: on every FAILED terminal except the
missing-index-path one (which performs no sink call, see the
counterexample), the runner invokes the raw-output sink exactly once with
whatever stdout/stderr was captured (possibly empty) before returning; on
the analysis step the sink is invoked on success and failure alike with
the captured output. -/
theorem claim_C3_sink_on_failure (cfg : ToolConfig) (env : RunEnv)
    (rp fp ip op : List Char) (rn : Nat) (b sidq : Option (List Char)) :
    ∀ t : RunTrace, t = run_wingman_test cfg env rp fp ip op rn b sidq →
      (∀ bn m, b = some bn →
        checkout_branch env.branchList env.branchCheckout bn = (false, m) →
        t.sinkCalls = [⟨[], msgBranchCheckoutFailed m, false⟩]) ∧
      (branchPassed env b →
        (∀ rc out err, env.createIndex = ProcResult.completed rc out err →
          rc ≠ 0 → t.sinkCalls = [⟨out, err, false⟩]) ∧
        (env.createIndex = ProcResult.timedOut →
          t.sinkCalls = [⟨[], msgIdxTimeout, false⟩]) ∧
        (∀ e, env.createIndex = ProcResult.excepted e →
          t.sinkCalls = [⟨[], msgIdxExc e, false⟩])) ∧
      (t.ranAnalysis = true →
        (∀ rc out err, env.wingman = ProcResult.completed rc out err →
          t.sinkCalls = [⟨out, err, decide (rc = 0)⟩]) ∧
        (env.wingman = ProcResult.timedOut →
          t.sinkCalls = [⟨[], msgTestTimeout, false⟩]) ∧
        (∀ e, env.wingman = ProcResult.excepted e →
          t.sinkCalls = [⟨[], e, false⟩])) := by
  intro t ht
  rcases run_wingman_test_spec cfg env rp fp ip op rn b sidq t ht with
    ⟨bn, m, hb, hcb, hrci, hra, hts, hsucc, herr, hsid, hsink⟩ | ⟨hbp, hidx⟩
  · refine ⟨?_, ?_, ?_⟩
    · intro bn' m' hb' hcb'
      have hbn : bn = bn' := Option.some.injEq .. |>.mp (hb.symm.trans hb')
      subst hbn
      have hm : m = m' := congrArg Prod.snd (hcb.symm.trans hcb')
      subst hm
      exact hsink
    · intro hbp
      rcases hbp with hnone | ⟨bn', m', hb', hcbT⟩
      · exact Option.noConfusion (hb.symm.trans hnone)
      · have hbn : bn = bn' := Option.some.injEq .. |>.mp (hb.symm.trans hb')
        subst hbn
        exact absurd (congrArg Prod.fst (hcb.symm.trans hcbT)) Bool.false_ne_true
    · intro hca
      exact absurd (hra.symm.trans hca) (by decide)
  · have hguard : ∀ bn m, b = some bn →
        checkout_branch env.branchList env.branchCheckout bn = (false, m) →
        t.sinkCalls = [⟨[], msgBranchCheckoutFailed m, false⟩] := by
      intro bn m hb hcb
      rcases hbp with hnone | ⟨bn', m', hb', hcbT⟩
      · exact Option.noConfusion (hnone.symm.trans hb)
      · have hbn : bn' = bn := Option.some.injEq .. |>.mp (hb'.symm.trans hb)
        subst hbn
        exact absurd (congrArg Prod.fst (hcbT.symm.trans hcb))
          (fun hh => Bool.false_ne_true hh.symm)
    rcases runIndexPhase_spec cfg env rp fp ip _ _ t hidx with ⟨hrci, hts, hcase⟩
    rcases hcase with
      ⟨rc, out, err, hci, hrc, hip, hteq⟩ |
      ⟨rc, out, err, hci, hrc, hip, hra, hsucc, herr, hsid, hsink⟩ |
      ⟨rc, out, err, hci, hrc, hra, hsucc, herr, hsid, hsink⟩ |
      ⟨hci, hra, hsucc, herr, hsid, hsink⟩ |
      ⟨e, hci, hra, hsucc, herr, hsid, hsink⟩
    · rcases runAnalysisPhase_spec cfg env fp ip _ _ _ _ t hteq with
        ⟨-, hra, -, hwcase⟩
      refine ⟨hguard, ?_, ?_⟩
      · intro _
        refine ⟨?_, ?_, ?_⟩
        · intro rc' out' err' hci' hne
          injection hci.symm.trans hci' with h1 h2 h3
          exact absurd (h1.symm.trans hrc) hne
        · intro hci'
          exact ProcResult.noConfusion (hci.symm.trans hci')
        · intro e hci'
          exact ProcResult.noConfusion (hci.symm.trans hci')
      · intro _
        rcases hwcase with
          ⟨rc2, out2, err2, hwm, hsucc, herr, hsid, hsink⟩ |
          ⟨hwm, hsucc, herr, hsid, hsink⟩ |
          ⟨e, hwm, hsucc, herr, hsid, hsink⟩
        · refine ⟨?_, ?_, ?_⟩
          · intro rc' out' err' hwm'
            injection hwm.symm.trans hwm' with h1 h2 h3
            subst h1
            subst h2
            subst h3
            exact hsink
          · intro hwm'
            exact ProcResult.noConfusion (hwm.symm.trans hwm')
          · intro e hwm'
            exact ProcResult.noConfusion (hwm.symm.trans hwm')
        · refine ⟨?_, ?_, ?_⟩
          · intro rc' out' err' hwm'
            exact ProcResult.noConfusion (hwm.symm.trans hwm')
          · intro _
            exact hsink
          · intro e hwm'
            exact ProcResult.noConfusion (hwm.symm.trans hwm')
        · refine ⟨?_, ?_, ?_⟩
          · intro rc' out' err' hwm'
            exact ProcResult.noConfusion (hwm.symm.trans hwm')
          · intro hwm'
            exact ProcResult.noConfusion (hwm.symm.trans hwm')
          · intro e' hwm'
            injection hwm.symm.trans hwm' with h1
            subst h1
            exact hsink
    · refine ⟨hguard, ?_, fun hca => absurd (hra.symm.trans hca) (by decide)⟩
      intro _
      refine ⟨?_, ?_, ?_⟩
      · intro rc' out' err' hci' hne
        injection hci.symm.trans hci' with h1 h2 h3
        exact absurd (h1.symm.trans hrc) hne
      · intro hci'
        exact ProcResult.noConfusion (hci.symm.trans hci')
      · intro e hci'
        exact ProcResult.noConfusion (hci.symm.trans hci')
    · refine ⟨hguard, ?_, fun hca => absurd (hra.symm.trans hca) (by decide)⟩
      intro _
      refine ⟨?_, ?_, ?_⟩
      · intro rc' out' err' hci' hne
        injection hci.symm.trans hci' with h1 h2 h3
        subst h1
        subst h2
        subst h3
        exact hsink
      · intro hci'
        exact ProcResult.noConfusion (hci.symm.trans hci')
      · intro e hci'
        exact ProcResult.noConfusion (hci.symm.trans hci')
    · refine ⟨hguard, ?_, fun hca => absurd (hra.symm.trans hca) (by decide)⟩
      intro _
      refine ⟨?_, ?_, ?_⟩
      · intro rc' out' err' hci'
        exact absurd (hci.symm.trans hci') (fun hh => ProcResult.noConfusion hh)
      · intro _
        exact hsink
      · intro e hci'
        exact ProcResult.noConfusion (hci.symm.trans hci')
    · refine ⟨hguard, ?_, fun hca => absurd (hra.symm.trans hca) (by decide)⟩
      intro _
      refine ⟨?_, ?_, ?_⟩
      · intro rc' out' err' hci'
        exact absurd (hci.symm.trans hci') (fun hh => ProcResult.noConfusion hh)
      · intro hci'
        exact ProcResult.noConfusion (hci.symm.trans hci')
      · intro e' hci'
        injection hci.symm.trans hci' with h1
        subst h1
        exact hsink

theorem claim_C3_sink_on_failure_witness :
    (run_wingman_test cfg0 envIdxFail repoP fileP inputsP outP 1 none
      none).sinkCalls = [⟨"o".data, "e".data, false⟩] := by
  have h := claim_C3_sink_on_failure cfg0 envIdxFail repoP fileP inputsP outP 1
    none none _ rfl
  exact (h.2.1 (Or.inl rfl)).1 2 ("o".data) ("e".data) rfl (by decide)

/-- Claim C7, amended: every result carries the timestamp field; the
session id is carried on every path except the analysis-timeout and
unexpected-exception terminals, whose dictionaries omit it. -/
theorem claim_C7_result_fields (cfg : ToolConfig) (env : RunEnv)
    (rp fp ip op : List Char) (rn : Nat) (b sidq : Option (List Char)) :
    ∀ t : RunTrace, t = run_wingman_test cfg env rp fp ip op rn b sidq →
      t.result.timestamp = env.now ∧
      (t.ranAnalysis = false →
        t.result.session_id = some (sidq.getD env.freshId)) ∧
      (t.ranAnalysis = true →
        ((∃ rc out err, env.wingman = ProcResult.completed rc out err ∧
            t.result.session_id = some (sidq.getD env.freshId)) ∨
         ((env.wingman = ProcResult.timedOut ∨
            ∃ e, env.wingman = ProcResult.excepted e) ∧
            t.result.session_id = none))) := by
  intro t ht
  rcases run_wingman_test_spec cfg env rp fp ip op rn b sidq t ht with
    ⟨bn, m, hb, hcb, hrci, hra, hts, hsucc, herr, hsid, hsink⟩ | ⟨hbp, hidx⟩
  · exact ⟨hts, fun _ => hsid,
      fun hca => absurd (hra.symm.trans hca) (by decide)⟩
  · rcases runIndexPhase_spec cfg env rp fp ip _ _ t hidx with ⟨hrci, hts, hcase⟩
    rcases hcase with
      ⟨rc, out, err, hci, hrc, hip, hteq⟩ |
      ⟨rc, out, err, hci, hrc, hip, hra, hsucc, herr, hsid, hsink⟩ |
      ⟨rc, out, err, hci, hrc, hra, hsucc, herr, hsid, hsink⟩ |
      ⟨hci, hra, hsucc, herr, hsid, hsink⟩ |
      ⟨e, hci, hra, hsucc, herr, hsid, hsink⟩
    · rcases runAnalysisPhase_spec cfg env fp ip _ _ _ _ t hteq with
        ⟨-, hra, -, hwcase⟩
      refine ⟨hts, fun hra0 => absurd (hra.symm.trans hra0) (by decide),
        fun _ => ?_⟩
      rcases hwcase with
        ⟨rc2, out2, err2, hwm, hsucc, herr, hsid, hsink⟩ |
        ⟨hwm, hsucc, herr, hsid, hsink⟩ |
        ⟨e, hwm, hsucc, herr, hsid, hsink⟩
      · exact Or.inl ⟨rc2, out2, err2, hwm, hsid⟩
      · exact Or.inr ⟨Or.inl hwm, hsid⟩
      · exact Or.inr ⟨Or.inr ⟨e, hwm⟩, hsid⟩
    · exact ⟨hts, fun _ => hsid,
        fun hca => absurd (hra.symm.trans hca) (by decide)⟩
    · exact ⟨hts, fun _ => hsid,
        fun hca => absurd (hra.symm.trans hca) (by decide)⟩
    · exact ⟨hts, fun _ => hsid,
        fun hca => absurd (hra.symm.trans hca) (by decide)⟩
    · exact ⟨hts, fun _ => hsid,
        fun hca => absurd (hra.symm.trans hca) (by decide)⟩

theorem claim_C7_result_fields_witness :
    (run_wingman_test cfg0 env0 repoP fileP inputsP outP 1 none
      none).result.timestamp = env0.now ∧
    (run_wingman_test cfg0 env0 repoP fileP inputsP outP 1 none
      none).result.session_id = some ("SID0".data) := by
  have h := claim_C7_result_fields cfg0 env0 repoP fileP inputsP outP 1
    none none _ rfl
  refine ⟨h.1, ?_⟩
  rcases h.2.2 (by decide) with ⟨rc, out, err, hwm, hs⟩ | ⟨hwm, hs⟩
  · exact hs
  · rcases hwm with hwm | ⟨e, hwm⟩
    · exact ProcResult.noConfusion hwm
    · exact ProcResult.noConfusion hwm

theorem findValid_cons (c : Option (List Char))
    (rest : List (Option (List Char))) :
    ((c :: rest).filterMap id).find? isValidJson =
      (match validateCand c with
       | some j => some j
       | none => ((rest.filterMap id).find? isValidJson)) := by
  cases c with
  | none => simp [validateCand, List.filterMap_cons]
  | some s =>
    by_cases h : isValidJson s
    · simp [validateCand, h, List.filterMap_cons, List.find?_cons]
    · simp [validateCand, h, List.filterMap_cons, List.find?_cons]

/-- Claim C4, amended: the extraction tries its five rungs in strict
source order — fenced ````json`` block; single-line `{"evaluation_results":[…]}`
and `{"analysis_results":[…]}` candidates ending at the first `]}` on the
line (not at the matching brace pair); their multi-line non-greedy
variants — accepting a candidate only if it parses as JSON, discarding an
invalid candidate and continuing, and returning `none` when all rungs
fail: the function equals "first valid candidate of the rung list". -/
theorem claim_C4_ladder_order (raw : List Char) :
    extract_json_from_output raw =
      if raw.isEmpty then none
      else ((ladderCandidates (clean_raw_output raw)).filterMap id).find?
        isValidJson := by
  by_cases hr : raw.isEmpty
  · simp [extract_json_from_output, hr]
  · simp only [extract_json_from_output, hr, if_false, ladderCandidates]
    generalize clean_raw_output raw = c
    rw [findValid_cons, findValid_cons, findValid_cons, findValid_cons,
      findValid_cons]
    simp only [List.filterMap_nil, List.find?_nil]

theorem alookup_aset_self {α : Type} (m : List (List Char × α))
    (k : List Char) (v : α) : alookup (aset m k v) k = some v := by
  induction m with
  | nil => simp [aset, alookup]
  | cons p r ih =>
    obtain ⟨k', w⟩ := p
    by_cases h : k' = k
    · subst h
      simp [aset, alookup]
    · simp [aset, alookup, h, ih]

theorem alookup_aset_ne {α : Type} (m : List (List Char × α))
    (k k' : List Char) (v : α) (h : k' ≠ k) :
    alookup (aset m k' v) k = alookup m k := by
  induction m with
  | nil => simp [aset, alookup, h]
  | cons p r ih =>
    obtain ⟨k'', w⟩ := p
    by_cases h2 : k'' = k'
    · subst h2
      simp [aset, alookup, h]
    · by_cases h3 : k'' = k <;> simp [aset, alookup, h2, h3, ih, Ne.symm h]

theorem putAllQueues_getElem? (sid msg : List Char) :
    ∀ (qs : List (List LogEntry)) (c n : Nat),
      (putAllQueues c sid msg qs)[n]?
        = (qs[n]?).map (fun q => q ++ [⟨c + n, msg, some sid⟩]) := by
  intro qs
  induction qs with
  | nil => intro c n; simp [putAllQueues]
  | cons q r ih =>
    intro c n
    cases n with
    | zero => simp [putAllQueues]
    | succ n' =>
      have harith : c + 1 + n' = c + (n' + 1) := by omega
      simp [putAllQueues, ih (c + 1) n', harith]

theorem histOf_broadcast (sid msg S : List Char) (st : LogState) :
    histOf (broadcast_log sid msg st) S =
      if sid = S then histOf st S ++ [⟨st.clock, msg, none⟩]
      else histOf st S := by
  unfold broadcast_log
  by_cases h : sid = S
  · subst h
    cases alookup st.log_subscribers sid <;>
      simp [histOf, alookup_aset_self]
  · cases alookup st.log_subscribers sid <;>
      simp [histOf, alookup_aset_ne _ _ _ _ h, h]

theorem histOf_attach (sid S : List Char) (st : LogState) :
    histOf (attachSubscriber sid st) S = histOf st S :=
  rfl

theorem subsOf_broadcast (sid msg S : List Char) (st : LogState) :
    subsOf (broadcast_log sid msg st) S =
      if sid = S then putAllQueues (st.clock + 1) sid msg (subsOf st S)
      else subsOf st S := by
  unfold broadcast_log
  by_cases h : sid = S
  · subst h
    cases halo : alookup st.log_subscribers sid with
    | none => simp [subsOf, halo, putAllQueues]
    | some qs => simp [subsOf, halo, alookup_aset_self]
  · cases halo : alookup st.log_subscribers sid with
    | none => simp [subsOf, halo, h]
    | some qs => simp [subsOf, halo, alookup_aset_ne _ _ _ _ h, h]

theorem subsOf_attach (sid S : List Char) (st : LogState) :
    subsOf (attachSubscriber sid st) S =
      if sid = S then subsOf st S ++ [histOf st S]
      else subsOf st S := by
  unfold attachSubscriber
  by_cases h : sid = S
  · subst h
    simp [subsOf, histOf, alookup_aset_self]
  · simp [subsOf, alookup_aset_ne _ _ _ _ h, h]

theorem histOf_foldl (S : List Char) (evs : List LogEvent) :
    ∀ st : LogState,
      qmsgs (histOf (evs.foldl stepLog st) S)
        = qmsgs (histOf st S) ++ msgsTo S evs := by
  induction evs with
  | nil => intro st; simp [msgsTo]
  | cons e r ih =>
    intro st
    cases e with
    | publish sid m =>
      simp only [List.foldl_cons, stepLog]
      rw [ih, histOf_broadcast]
      by_cases h : sid = S
      · simp [h, msgsTo, qmsgs]
      · simp [h, msgsTo]
    | attach sid =>
      simp only [List.foldl_cons, stepLog]
      rw [ih, histOf_attach]
      simp [msgsTo]

theorem subs_queue_foldl (S : List Char) (evs : List LogEvent) :
    ∀ (st : LogState) (n : Nat) (q : List LogEntry),
      (subsOf st S)[n]? = some q →
      ∃ q', (subsOf (evs.foldl stepLog st) S)[n]? = some q' ∧
        qmsgs q' = qmsgs q ++ msgsTo S evs := by
  induction evs with
  | nil => exact fun st n q h => ⟨q, h, by simp [msgsTo]⟩
  | cons e r ih =>
    intro st n q h
    cases e with
    | publish sid m =>
      by_cases hs : sid = S
      · subst hs
        have h1 : (subsOf (broadcast_log sid m st) sid)[n]?
            = some (q ++ [⟨st.clock + 1 + n, m, some sid⟩]) := by
          rw [subsOf_broadcast, if_pos rfl, putAllQueues_getElem?, h]
          rfl
        obtain ⟨q', h2, h3⟩ := ih _ n _ h1
        refine ⟨q', h2, ?_⟩
        rw [h3]
        simp [qmsgs, msgsTo]
      · have h1 : (subsOf (broadcast_log sid m st) S)[n]? = some q := by
          rw [subsOf_broadcast, if_neg hs]
          exact h
        obtain ⟨q', h2, h3⟩ := ih _ n _ h1
        refine ⟨q', h2, ?_⟩
        rw [h3]
        simp [msgsTo, hs]
    | attach sid =>
      have h1 : (subsOf (attachSubscriber sid st) S)[n]? = some q := by
        rw [subsOf_attach]
        by_cases hs : sid = S
        · rw [if_pos hs]
          have hn : n < (subsOf st S).length := by
            by_contra hge
            rw [List.getElem?_eq_none (Nat.le_of_not_lt hge)] at h
            exact Option.noConfusion h
          rw [List.getElem?_append, if_pos hn]
          exact h
        · rw [if_neg hs]
          exact h
      obtain ⟨q', h2, h3⟩ := ih _ n _ h1
      refine ⟨q', h2, ?_⟩
      rw [h3]
      simp [msgsTo]

/-- Claim C5: after any event sequence `pre`, a subscriber attaching to
session `S` gets a queue that, after any further event sequence `post`,
holds exactly the messages published to `S` in `pre` (the replayed
history) followed by exactly the messages published to `S` in `post`, in
publish order; and the in-memory history of `S` holds exactly all
messages published to `S`, in publish order, regardless of subscriber
state. -/
theorem claim_C5_replay_then_live (pre post : List LogEvent) (S : List Char) :
    ((subsOf (post.foldl stepLog
        (stepLog (pre.foldl stepLog initLogState) (LogEvent.attach S))) S)[
        (subsOf (pre.foldl stepLog initLogState) S).length]?).map qmsgs
      = some (msgsTo S pre ++ msgsTo S post) ∧
    qmsgs (histOf (post.foldl stepLog
        (stepLog (pre.foldl stepLog initLogState) (LogEvent.attach S))) S)
      = msgsTo S pre ++ msgsTo S post := by
  have hpre_hist : qmsgs (histOf (pre.foldl stepLog initLogState) S)
      = msgsTo S pre := by
    rw [histOf_foldl]
    simp [initLogState, histOf, alookup, qmsgs]
  have hq0 : (subsOf (stepLog (pre.foldl stepLog initLogState)
      (LogEvent.attach S)) S)[
      (subsOf (pre.foldl stepLog initLogState) S).length]?
      = some (histOf (pre.foldl stepLog initLogState) S) := by
    show (subsOf (attachSubscriber S (pre.foldl stepLog initLogState)) S)[_]?
      = _
    rw [subsOf_attach, if_pos rfl]
    rw [List.getElem?_append_right (Nat.le_refl _)]
    simp
  obtain ⟨q', hq', hm'⟩ := subs_queue_foldl S post _ _ _ hq0
  constructor
  · rw [hq']
    simp only [Option.map_some']
    rw [hm', hpre_hist]
  · rw [histOf_foldl]
    have hat : histOf (stepLog (pre.foldl stepLog initLogState)
        (LogEvent.attach S)) S = histOf (pre.foldl stepLog initLogState) S :=
      histOf_attach _ _ _
    rw [hat, hpre_hist]

theorem trimRightC_eq_rdropWhile (l : List Char) :
    trimRightC l = List.rdropWhile isSpaceC l :=
  rfl

theorem dropWhile_eq_self_head {a : Char} {z : List Char} (p : Char → Bool)
    (h : (a :: z).dropWhile p = a :: z) : p a = false := by
  cases hp : p a with
  | false => rfl
  | true =>
    rw [List.dropWhile_cons, if_pos hp] at h
    have hle := length_dropWhile_le p z
    rw [h] at hle
    simp at hle

theorem trimLeftC_stripC (l : List Char) : trimLeftC (stripC l) = stripC l := by
  show trimLeftC (trimRightC (trimLeftC l)) = trimRightC (trimLeftC l)
  have hidem : trimLeftC (trimLeftC l) = trimLeftC l :=
    List.dropWhile_idempotent _ _
  rcases hq : trimRightC (trimLeftC l) with _ | ⟨a, r⟩
  · simp [trimLeftC]
  · have hpre : trimRightC (trimLeftC l) <+: trimLeftC l := by
      rw [trimRightC_eq_rdropWhile]
      exact List.rdropWhile_prefix _ _
    rw [hq] at hpre
    obtain ⟨t, ht⟩ := hpre
    have hhead : isSpaceC a = false := by
      refine dropWhile_eq_self_head (z := r ++ t) isSpaceC ?_
      have h3 : trimLeftC l = a :: (r ++ t) := by rw [← ht]; simp
      rw [← h3]
      exact hidem
    show (a :: r).dropWhile isSpaceC = a :: r
    rw [List.dropWhile_cons, if_neg (by simp [hhead])]

theorem stripC_idem (l : List Char) : stripC (stripC l) = stripC l := by
  have h1 : stripC (stripC l) = trimRightC (trimLeftC (stripC l)) := rfl
  rw [h1, trimLeftC_stripC]
  show trimRightC (trimRightC (trimLeftC l)) = trimRightC (trimLeftC l)
  rw [trimRightC_eq_rdropWhile, trimRightC_eq_rdropWhile]
  exact List.rdropWhile_idempotent _ _

theorem stripC_eq_self_parts {j : List Char} (h : stripC j = j) :
    trimLeftC j = j ∧ trimRightC j = j := by
  have hsuf : trimLeftC j <:+ j := List.dropWhile_suffix _
  have hpre : trimRightC (trimLeftC j) <+: trimLeftC j := by
    rw [trimRightC_eq_rdropWhile]
    exact List.rdropWhile_prefix _ _
  have hlen1 : (trimRightC (trimLeftC j)).length ≤ (trimLeftC j).length :=
    hpre.length_le
  have hlen2 : (trimLeftC j).length ≤ j.length := hsuf.length_le
  have hlen3 : (trimRightC (trimLeftC j)).length = j.length := by
    show (stripC j).length = j.length
    rw [h]
  have hL : trimLeftC j = j := hsuf.eq_of_length (by omega)
  refine ⟨hL, ?_⟩
  have : trimRightC j = stripC j := by
    show trimRightC j = trimRightC (trimLeftC j)
    rw [hL]
  rw [this, h]

theorem stripC_wrap {j : List Char} (h : stripC j = j) :
    stripC ('\n' :: (j ++ ['\n'])) = j := by
  obtain ⟨hL, hR⟩ := stripC_eq_self_parts h
  have hnl : isSpaceC '\n' = true := by decide
  show trimRightC (trimLeftC ('\n' :: (j ++ ['\n']))) = j
  have h1 : trimLeftC ('\n' :: (j ++ ['\n'])) = (j ++ ['\n']).dropWhile isSpaceC := by
    unfold trimLeftC
    rw [List.dropWhile_cons, if_pos (by simp [hnl])]
  rw [h1]
  cases j with
  | nil =>
    simp [List.dropWhile, hnl, trimRightC]
  | cons c t =>
    have hc : isSpaceC c = false := dropWhile_eq_self_head isSpaceC hL
    have h2 : ((c :: t) ++ ['\n']).dropWhile isSpaceC = (c :: t) ++ ['\n'] := by
      rw [List.cons_append, List.dropWhile_cons, if_neg (by simp [hc])]
    rw [h2, trimRightC_eq_rdropWhile,
      List.rdropWhile_concat_pos _ _ _ hnl, ← trimRightC_eq_rdropWhile, hR]

theorem splitOnFirst_prefix (c : Char) (p s : List Char) :
    splitOnFirst (c :: p) ((c :: p) ++ s) = some ([], s) := by
  have hpre : (c :: p).isPrefixOf ((c :: p) ++ s) = true :=
    List.isPrefixOf_iff_prefix.2 (List.prefix_append _ _)
  rw [List.cons_append] at hpre ⊢
  rw [splitOnFirst, if_pos hpre]
  simp [List.drop_left']

theorem splitOnFirst_ticks (j : List Char) (h : '`' ∉ j) :
    splitOnFirst ticksLit (j ++ '\n' :: ticksLit) = some (j ++ ['\n'], []) := by
  induction j with
  | nil => decide
  | cons c cs ih =>
    have h2 : '`' ∉ cs := fun hm => h (List.mem_cons_of_mem _ hm)
    have hc : ¬('`' = c) := fun hh => h (hh ▸ List.mem_cons_self c cs)
    have hnp : ticksLit.isPrefixOf (c :: (cs ++ '\n' :: ticksLit)) = false := by
      simp [ticksLit, List.isPrefixOf, hc]
    rw [List.cons_append, splitOnFirst, if_neg (by simp [hnp]), ih h2]
    rfl

theorem validateCand_some {o : Option (List Char)} {j : List Char}
    (h : validateCand o = some j) : o = some j ∧ isValidJson j = true := by
  cases o with
  | none => simp [validateCand] at h
  | some s =>
    by_cases hv : isValidJson s
    · simp only [validateCand, hv, if_pos, Option.some.injEq] at h
      subst h
      exact ⟨rfl, hv⟩
    · simp [validateCand, hv] at h

theorem rung1_strip {s t : List Char} (h : rung1 s = some t) : stripC t = t := by
  unfold rung1 at h
  rcases h1 : splitOnFirst fenceJsonLit s with _ | ⟨pre, rest⟩ <;> rw [h1] at h
  · exact Option.noConfusion h
  · dsimp only at h
    rcases h2 : splitOnFirst ticksLit rest with _ | ⟨mid, post⟩ <;> rw [h2] at h
    · exact Option.noConfusion h
    · dsimp only at h
      have := Option.some.injEq .. |>.mp h
      rw [← this]
      exact stripC_idem mid

theorem rungSingleAux_strip (lit : List Char) :
    ∀ (fuel : Nat) (s t : List Char),
      rungSingleAux lit fuel s = some t → stripC t = t := by
  intro fuel
  induction fuel with
  | zero => intro s t h; exact Option.noConfusion h
  | succ f ih =>
    intro s t h
    unfold rungSingleAux at h
    rcases h1 : splitOnFirst lit s with _ | ⟨pre, rest⟩ <;> rw [h1] at h
    · exact Option.noConfusion h
    · dsimp only at h
      rcases h2 : scanCloseSingle rest with _ | mid <;> rw [h2] at h
      · exact ih rest t h
      · dsimp only at h
        have := Option.some.injEq .. |>.mp h
        rw [← this]
        exact stripC_idem _

theorem rungMultiAux_strip (lit : List Char) :
    ∀ (fuel : Nat) (s t : List Char),
      rungMultiAux lit fuel s = some t → stripC t = t := by
  intro fuel
  induction fuel with
  | zero => intro s t h; exact Option.noConfusion h
  | succ f ih =>
    intro s t h
    unfold rungMultiAux at h
    rcases h1 : splitOnFirst ['\x7b'] s with _ | ⟨pre, rest⟩ <;> rw [h1] at h
    · exact Option.noConfusion h
    · dsimp only at h
      rcases h2 : rungMultiTry lit rest with _ | cand <;> rw [h2] at h
      · exact ih rest t h
      · dsimp only at h
        have := Option.some.injEq .. |>.mp h
        rw [← this]
        exact stripC_idem _

theorem extract_valid_strip {raw j : List Char}
    (h : extract_json_from_output raw = some j) :
    isValidJson j = true ∧ stripC j = j := by
  unfold extract_json_from_output at h
  split at h
  · exact Option.noConfusion h
  · dsimp only at h
    rcases h1 : validateCand (rung1 (clean_raw_output raw)) with _ | j1 <;>
      rw [h1] at h
    case some =>
      obtain ⟨ho, hv⟩ := validateCand_some h1
      have hj := Option.some.injEq .. |>.mp h
      subst hj
      exact ⟨hv, rung1_strip ho⟩
    case none =>
    rcases h2 : validateCand (rungSingle keyEval (clean_raw_output raw)) with
      _ | j2 <;> rw [h2] at h
    case some =>
      obtain ⟨ho, hv⟩ := validateCand_some h2
      have hj := Option.some.injEq .. |>.mp h
      subst hj
      exact ⟨hv, rungSingleAux_strip _ _ _ _ ho⟩
    case none =>
    rcases h3 : validateCand (rungSingle keyAnal (clean_raw_output raw)) with
      _ | j3 <;> rw [h3] at h
    case some =>
      obtain ⟨ho, hv⟩ := validateCand_some h3
      have hj := Option.some.injEq .. |>.mp h
      subst hj
      exact ⟨hv, rungSingleAux_strip _ _ _ _ ho⟩
    case none =>
    rcases h4 : validateCand (rungMulti keyEval (clean_raw_output raw)) with
      _ | j4 <;> rw [h4] at h
    case some =>
      obtain ⟨ho, hv⟩ := validateCand_some h4
      have hj := Option.some.injEq .. |>.mp h
      subst hj
      exact ⟨hv, rungMultiAux_strip _ _ _ _ ho⟩
    case none =>
    rcases h5 : validateCand (rungMulti keyAnal (clean_raw_output raw)) with
      _ | j5 <;> rw [h5] at h
    case some =>
      obtain ⟨ho, hv⟩ := validateCand_some h5
      have hj := Option.some.injEq .. |>.mp h
      subst hj
      exact ⟨hv, rungMultiAux_strip _ _ _ _ ho⟩
    case none => exact Option.noConfusion h

/-- Claim C9, amended: extraction is idempotent on its own output
provided cleaning leaves the re-fed fenced text unchanged and the
extracted text contains no backtick: if extraction succeeded with `j`,
re-feeding ```` ```json\n<j>\n``` ```` through clean and extraction
returns exactly `j` (hence the same structured value).  The
counterexample shows the cleaning proviso is necessary; without it the
cleaner may rewrite the extracted text (e.g. strip a recreated
`Thinking...`). -/
theorem claim_C9_idempotence_guarded (raw j : List Char)
    (hx : extract_json_from_output raw = some j)
    (hclean : clean_raw_output (fencedWrap j) = fencedWrap j)
    (htick : '`' ∉ j) :
    extract_json_from_output (fencedWrap j) = some j := by
  obtain ⟨hval, hstrip⟩ := extract_valid_strip hx
  have hsplit1 : splitOnFirst fenceJsonLit (fencedWrap j)
      = some ([], '\n' :: (j ++ '\n' :: ticksLit)) :=
    splitOnFirst_prefix '`' ('`' :: '`' :: 'j' :: 's' :: 'o' :: 'n' :: [])
      ('\n' :: (j ++ '\n' :: ticksLit))
  have hsplit2 : splitOnFirst ticksLit ('\n' :: (j ++ '\n' :: ticksLit))
      = some ('\n' :: (j ++ ['\n']), []) := by
    rw [splitOnFirst, if_neg (by simp [ticksLit, List.isPrefixOf]),
      splitOnFirst_ticks j htick]
  have hr1 : rung1 (fencedWrap j) = some j := by
    unfold rung1
    rw [hsplit1]
    dsimp only
    rw [hsplit2]
    dsimp only
    rw [stripC_wrap hstrip]
  unfold extract_json_from_output
  rw [if_neg (by simp [fencedWrap, fenceJsonLit])]
  dsimp only
  rw [hclean, hr1]
  simp [validateCand, hval]

theorem claim_C9_idempotence_guarded_witness :
    extract_json_from_output wit9raw = some wit9j ∧
    clean_raw_output (fencedWrap wit9j) = fencedWrap wit9j ∧
    extract_json_from_output (fencedWrap wit9j) = some wit9j :=
  ⟨by decide, by decide,
    claim_C9_idempotence_guarded wit9raw wit9j (by decide) (by decide)
      (by decide)⟩

end ZapSuite
